import Mathlib

/-!
Shallow embedding of the shedoc parser (Go package `shedoc`).

Lines are modelled as `List Char` (`Str`).  Scanner-produced lines never
contain a newline character, so the distinction between the regexp `.`
metacharacter (which excludes newline) and "any character" is immaterial.
Go `string` values become `Str`; Go `nil` pointers become `Option`.
-/

namespace Shedoc

abbrev Str := List Char

/-- Whitespace as trimmed by Go's `strings.TrimSpace` (ASCII part;
Unicode white space never occurs in the inputs considered here). -/
def isGoSpace (c : Char) : Bool :=
  c = ' ' || c = '\t' || c = '\n' || c = '\x0b' || c = '\x0c' || c = '\r'

/-- The regexp character class `\s` of Go's `regexp` package:
`[\t\n\f\r ]`. -/
def isReSpace (c : Char) : Bool :=
  c = ' ' || c = '\t' || c = '\n' || c = '\x0c' || c = '\r'

/-- The regexp character class `\w`: `[0-9A-Za-z_]`. -/
def isWordChar (c : Char) : Bool := c.isAlphanum || c = '_'

/-- Character class for the tail of a function identifier: `[\w-]`. -/
def isIdentChar (c : Char) : Bool := isWordChar c || c = '-'

/-- Go `strings.TrimSpace`, left part. -/
def trimLeft (s : Str) : Str := s.dropWhile isGoSpace

/-- Go `strings.TrimSpace`, right part. -/
def trimRight (s : Str) : Str := (s.reverse.dropWhile isGoSpace).reverse

/-- Go `strings.TrimSpace`. -/
def trimSpace (s : Str) : Str := trimLeft (trimRight s)

/-- Go `strings.HasPrefix s pre`. -/
def startsWith (s pre : Str) : Bool := pre.isPrefixOf s

/-- Go `strings.HasSuffix s suf`. -/
def endsWith (s suf : Str) : Bool := suf.isSuffixOf s

/-- Index of the first character satisfying `q` (shared skeleton of the
single-character `strings.Index`/`strings.IndexAny` calls below). -/
def indexWhere (q : Char → Bool) : Str → Option Nat
  | [] => none
  | c :: cs =>
    if q c then some 0
    else (indexWhere q cs).map (· + 1)

/-- Go `strings.IndexAny(s, " \t")`. -/
def indexAnySpTab (s : Str) : Option Nat := indexWhere (fun c => c = ' ' || c = '\t') s

/-- Go `strings.Index(s, "=")` (first occurrence). -/
def indexEq (s : Str) : Option Nat := indexWhere (fun c => c = '=') s

/-- Go `strings.Join(ls, sep)`. -/
def joinWith (sep : Str) (ls : List Str) : Str := List.intercalate sep ls

/-- Go's `%q` formatting of a string for the error messages of
`ParseValue` (quote and backslash escaped; the other escapes of
`strconv.Quote` never arise in the inputs considered here). -/
def goQuote (s : Str) : Str :=
  '"' :: (s.flatMap fun c =>
    if c = '"' then ['\\', '"']
    else if c = '\\' then ['\\', '\\']
    else [c]) ++ ['"']

/-- `splitFirstToken` from tag.go: first whitespace-delimited token and
the rest. -/
def splitFirstToken (s : Str) : Str × Str :=
  let s := trimSpace s
  match indexAnySpTab s with
  | none => (s, [])
  | some idx => (s.take idx, s.drop (idx + 1))

/-! ## Data model (model.go) -/

inductive Visibility where
  | command
  | subcommand
  | public
  | priv        -- Go constant `VisibilityPrivate` (`private` is a Lean keyword)
deriving DecidableEq, Repr

structure Flag where
  short : Str := []
  long : Str := []
  description : Str := []
  line : Nat := 0
deriving DecidableEq, Repr

structure Value where
  name : Str := []
  required : Bool := false
  default : Str := []
  variadic : Bool := false
deriving DecidableEq, Repr

/-- Go type `Option` (renamed: `Option` is taken by Lean's core). -/
structure OptionTag where
  short : Str := []
  long : Str := []
  value : Value := {}
  description : Str := []
  line : Nat := 0
deriving DecidableEq, Repr

structure Operand where
  value : Value := {}
  description : Str := []
  line : Nat := 0
deriving DecidableEq, Repr

structure Env where
  name : Str := []
  description : Str := []
  line : Nat := 0
deriving DecidableEq, Repr

structure Reads where
  path : Str := []
  description : Str := []
  line : Nat := 0
deriving DecidableEq, Repr

structure Stdin where
  description : Str := []
  line : Nat := 0
deriving DecidableEq, Repr

structure Exit where
  code : Str := []
  description : Str := []
  line : Nat := 0
deriving DecidableEq, Repr

structure Stdout where
  description : Str := []
  line : Nat := 0
deriving DecidableEq, Repr

structure Stderr where
  description : Str := []
  line : Nat := 0
deriving DecidableEq, Repr

structure Sets where
  name : Str := []
  description : Str := []
  line : Nat := 0
deriving DecidableEq, Repr

structure Writes where
  path : Str := []
  description : Str := []
  line : Nat := 0
deriving DecidableEq, Repr

structure Deprecated where
  message : Str := []
  line : Nat := 0
deriving DecidableEq, Repr

structure Warning where
  line : Nat := 0
  message : Str := []
deriving DecidableEq, Repr

structure Meta where
  name : Str := []
  version : Str := []
  synopsis : Str := []
  description : Str := []
  examples : Str := []
  manSection : Str := []   -- Go field `Section` (`section` is a Lean keyword)
  author : Str := []
  license : Str := []
deriving DecidableEq, Repr

structure Block where
  visibility : Visibility := .public
  name : Str := []
  description : Str := []
  functionName : Str := []
  line : Nat := 0
  flags : List Flag := []
  options : List OptionTag := []
  operands : List Operand := []
  env : List Env := []
  reads : List Reads := []
  stdin : Option Stdin := none
  exit : List Exit := []
  stdout : Option Stdout := none
  stderr : Option Stderr := none
  sets : List Sets := []
  writes : List Writes := []
  deprecated : Option Deprecated := none
deriving DecidableEq, Repr

structure Document where
  path : Str := []
  shebang : Str := []
  meta : Meta := {}
  blocks : List Block := []
  warnings : List Warning := []
deriving DecidableEq, Repr

/-! ## Value-notation parser (value.go) -/

/-- `ParseValue` from value.go. -/
def ParseValue (s0 : Str) : Except Str Value :=
  let s := trimSpace s0
  if s.length < 3 then
    .error (("invalid value notation: ").data ++ goQuote s)
  else
    let op := s.headD ' '
    let cl := s.getLastD ' '
    if op = '<' ∧ cl = '>' then
      parseValueInner s true
    else if op = '[' ∧ cl = ']' then
      parseValueInner s false
    else
      .error (("invalid value notation: ").data ++ goQuote s
        ++ (" (must be <...> or [...])").data)
where
  parseValueInner (s : Str) (required : Bool) : Except Str Value :=
    let inner := (s.drop 1).dropLast
    if inner = [] then
      .error (("invalid value notation: ").data ++ goQuote s ++ (" (empty name)").data)
    else
      let variadic := endsWith inner ("...").data
      let inner1 := if variadic then inner.take (inner.length - 3) else inner
      if variadic && inner1 = [] then
        .error (("invalid value notation: ").data ++ goQuote s
          ++ (" (empty name before ...)").data)
      else
        match indexEq inner1 with
        | some idx =>
          if required then
            .error (("invalid value notation: ").data ++ goQuote s
              ++ (" (defaults not allowed in required values)").data)
          else
            let d := inner1.drop (idx + 1)
            let nm := inner1.take idx
            if nm = [] then
              .error (("invalid value notation: ").data ++ goQuote s
                ++ (" (empty name before =)").data)
            else
              .ok { name := nm, required := required, default := d, variadic := variadic }
        | none =>
          .ok { name := inner1, required := required, default := [], variadic := variadic }

/-! ## Tag parsers (tag.go) -/

/-- Closed sum over the concrete record types a tag parser can produce
(Go uses `any` plus type assertions). -/
inductive TagResult where
  | flag (v : Flag)
  | option (v : OptionTag)
  | operand (v : Operand)
  | env (v : Env)
  | reads (v : Reads)
  | stdin (v : Stdin)
  | exit (v : Exit)
  | stdout (v : Stdout)
  | stderr (v : Stderr)
  | sets (v : Sets)
  | writes (v : Writes)
  | deprecated (v : Deprecated)
deriving DecidableEq, Repr

/-- `consumeFlags` from tag.go, written with explicit fuel in place of
the Go `for` loop (each iteration strictly shortens `text`, so the
initial fuel `text.length + 1` is never exhausted).  The Go function
mutates `*short` and `*long`; here they are threaded and returned. -/
def consumeFlagsAux : Nat → Str → Str → Str → Str × Str × Str
  | 0, text, short, long => (text, short, long)
  | fuel + 1, text, short, long =>
    if text = [] then (text, short, long)
    else if startsWith text ("--").data then
      let (nm, rest) := splitFirstToken text
      let t2 := trimSpace rest
      if startsWith t2 ("|").data then
        consumeFlagsAux fuel (trimSpace (t2.drop 1)) short nm
      else (t2, short, nm)
    else if startsWith text ("-").data then
      let (nm, rest) := splitFirstToken text
      let t2 := trimSpace rest
      if startsWith t2 ("|").data then
        consumeFlagsAux fuel (trimSpace (t2.drop 1)) nm long
      else (t2, nm, long)
    else (text, short, long)

/-- `consumeFlags` from tag.go: returns `(rest, short, long)`. -/
def consumeFlags (text short long : Str) : Str × Str × Str :=
  consumeFlagsAux (text.length + 1) (trimSpace text) short long

/-- `parseFlag` from tag.go. -/
def parseFlag (text0 : Str) (line : Nat) : Except Str Flag :=
  let text := trimSpace text0
  if text = [] then .error ("@flag requires at least one flag name").data
  else
    let (rest, short, long) := consumeFlags text [] []
    .ok { short := short, long := long, description := trimSpace rest, line := line }

/-- `parseOption` from tag.go. -/
def parseOption (text0 : Str) (line : Nat) : Except Str OptionTag :=
  let text := trimSpace text0
  if text = [] then
    .error ("@option requires at least one flag name and a value").data
  else
    let (rest0, short, long) := consumeFlags text [] []
    let rest := trimSpace rest0
    let (valStr, desc) := splitFirstToken rest
    if valStr = [] then
      .error ("@option requires a value notation (e.g., <value> or [value])").data
    else
      match ParseValue valStr with
      | .error e => .error (("@option value: ").data ++ e)
      | .ok v =>
        .ok { short := short, long := long, value := v,
              description := trimSpace desc, line := line }

/-- `parseOperand` from tag.go. -/
def parseOperand (text0 : Str) (line : Nat) : Except Str Operand :=
  let text := trimSpace text0
  if text = [] then .error ("@operand requires a value notation").data
  else
    let (valStr, desc) := splitFirstToken text
    match ParseValue valStr with
    | .error e => .error (("@operand value: ").data ++ e)
    | .ok v => .ok { value := v, description := trimSpace desc, line := line }

/-- `parseEnv` from tag.go. -/
def parseEnv (text0 : Str) (line : Nat) : Except Str Env :=
  let text := trimSpace text0
  if text = [] then .error ("@env requires a variable name").data
  else
    let (nm, desc) := splitFirstToken text
    .ok { name := nm, description := trimSpace desc, line := line }

/-- `parseReads` from tag.go. -/
def parseReads (text0 : Str) (line : Nat) : Except Str Reads :=
  let text := trimSpace text0
  if text = [] then .error ("@reads requires a path").data
  else
    let (p, desc) := splitFirstToken text
    .ok { path := p, description := trimSpace desc, line := line }

/-- `parseExit` from tag.go. -/
def parseExit (text0 : Str) (line : Nat) : Except Str Exit :=
  let text := trimSpace text0
  if text = [] then .error ("@exit requires an exit code").data
  else
    let (code, desc) := splitFirstToken text
    .ok { code := code, description := trimSpace desc, line := line }

/-- `parseSets` from tag.go. -/
def parseSets (text0 : Str) (line : Nat) : Except Str Sets :=
  let text := trimSpace text0
  if text = [] then .error ("@sets requires a variable name").data
  else
    let (nm, desc) := splitFirstToken text
    .ok { name := nm, description := trimSpace desc, line := line }

/-- `parseWrites` from tag.go. -/
def parseWrites (text0 : Str) (line : Nat) : Except Str Writes :=
  let text := trimSpace text0
  if text = [] then .error ("@writes requires a path").data
  else
    let (p, desc) := splitFirstToken text
    .ok { path := p, description := trimSpace desc, line := line }

/-- `parseTag` from tag.go.  The Go function also returns the tag name
unchanged; callers use the input name, so only the result is returned. -/
def parseTag (name text : Str) (line : Nat) : Except Str TagResult :=
  if name = ("flag").data then (parseFlag text line).map .flag
  else if name = ("option").data then (parseOption text line).map .option
  else if name = ("operand").data then (parseOperand text line).map .operand
  else if name = ("env").data then (parseEnv text line).map .env
  else if name = ("reads").data then (parseReads text line).map .reads
  else if name = ("stdin").data then
    .ok (.stdin { description := text, line := line })
  else if name = ("exit").data then (parseExit text line).map .exit
  else if name = ("stdout").data then
    .ok (.stdout { description := text, line := line })
  else if name = ("stderr").data then
    .ok (.stderr { description := text, line := line })
  else if name = ("sets").data then (parseSets text line).map .sets
  else if name = ("writes").data then (parseWrites text line).map .writes
  else if name = ("deprecated").data then
    .ok (.deprecated { message := text, line := line })
  else .error (("unknown tag @").data ++ name)

/-! ## Line classifiers (the compiled regexps of part_010)

Each matcher mirrors the corresponding anchored Go regexp under RE2's
leftmost-first (greedy, backtrack-minimally) submatch semantics; the
greedy/backtracking analysis is noted where it matters. -/

/-- `reShebang`: `^#!(.+)$`. -/
def matchShebang (l : Str) : Option Str :=
  match l with
  | '#' :: '!' :: rest => if rest = [] then none else some rest
  | _ => none

/-- The second capture of `reShedocInline` from the text following the
word run: `\s+(.+)$` under leftmost-first semantics.  The greedy `\s+`
takes the maximal whitespace run; when that leaves nothing for `.+`, it
backs off one character so `.+` captures exactly the final character. -/
def inlineCapture (rest : Str) : Str :=
  if rest.dropWhile isReSpace = [] then rest.drop (rest.length - 1)
  else rest.dropWhile isReSpace

/-- The part of `reShedocInline` after the literal `#?/` prefix:
`(\w+)\s+(.+)$` (the word run must be nonempty, then at least one
whitespace character and at least one further character). -/
def shedocInlineBody (r : Str) : Option (Str × Str) :=
  let w := r.takeWhile isWordChar
  let rest := r.dropWhile isWordChar
  match rest with
  | c :: cs =>
    if w ≠ [] && isReSpace c && cs ≠ [] then some (w, inlineCapture rest)
    else none
  | [] => none

/-- `reShedocInline`: `^#\?/(\w+)\s+(.+)$`. -/
def matchShedocInline (l : Str) : Option (Str × Str) :=
  match l with
  | '#' :: '?' :: '/' :: r => shedocInlineBody r
  | _ => none

/-- `reShedocOpen`: `^#\?/(\w+)\s*$`. -/
def matchShedocOpen (l : Str) : Option Str :=
  match l with
  | '#' :: '?' :: '/' :: r =>
    let w := r.takeWhile isWordChar
    let rest := r.dropWhile isWordChar
    if w ≠ [] && rest.all isReSpace then some w else none
  | _ => none

/-- `reSheblockOpen`: `^#@/(\w*)\s*(.*)$` (second capture starts after
the maximal whitespace run following the word). -/
def matchSheblockOpen (l : Str) : Option (Str × Str) :=
  match l with
  | '#' :: '@' :: '/' :: r =>
    let w := r.takeWhile isWordChar
    let rest := r.dropWhile isWordChar
    some (w, rest.dropWhile isReSpace)
  | _ => none

/-- The capture of `reContinuation` after the ` #` prefix: the optional
single space of ` # ?` is consumed when present. -/
def contTail : Str → Str
  | ' ' :: r2 => r2
  | r => r

/-- `reContinuation`: `^ # ?(.*)$`. -/
def matchContinuation (l : Str) : Option Str :=
  match l with
  | ' ' :: '#' :: r => some (contTail r)
  | _ => none

/-- `reBlockClose`: `^ ##\s*$`. -/
def matchBlockClose (l : Str) : Bool :=
  match l with
  | ' ' :: '#' :: '#' :: r => r.all isReSpace
  | _ => false

/-- `reFuncKeyword`: `^\s*function\s+(\w[\w-]*)` (prefix match, nothing
required after the identifier). -/
def matchFuncKeyword (l : Str) : Option Str :=
  let r := l.dropWhile isReSpace
  if startsWith r ("function").data then
    let r2 := r.drop 8
    match r2 with
    | c :: _ =>
      if isReSpace c then
        match r2.dropWhile isReSpace with
        | d :: ds => if isWordChar d then some (d :: ds.takeWhile isIdentChar) else none
        | [] => none
      else none
    | [] => none
  else none

/-- `reFuncParen`: `^\s*(\w[\w-]*)\s*\(\)\s*\{?` (prefix match; the
maximal `[\w-]*` run is the only candidate since a given-back identifier
character can match neither `\s` nor `(`). -/
def matchFuncParen (l : Str) : Option Str :=
  let r := l.dropWhile isReSpace
  match r with
  | c :: cs =>
    if isWordChar c then
      let nm := c :: cs.takeWhile isIdentChar
      match (cs.dropWhile isIdentChar).dropWhile isReSpace with
      | '(' :: ')' :: _ => some nm
      | _ => none
    else none
  | [] => none

/-- `matchFuncDecl` from part_010 (empty result means "no match"). -/
def matchFuncDecl (l : Str) : Str :=
  match matchFuncKeyword l with
  | some n => n
  | none =>
    match matchFuncParen l with
    | some n => n
    | none => []

/-- `splitTag` from part_010. -/
def splitTag (content : Str) : Option (Str × Str) :=
  let trimmed := trimSpace content
  match trimmed with
  | '@' :: rest =>
    match indexAnySpTab rest with
    | none => some (rest, [])
    | some idx => some (rest.take idx, trimSpace (rest.drop (idx + 1)))
  | _ => none

/-- `parseSheblockHeader` from part_010. -/
def parseSheblockHeader (vis extra : Str) : Visibility × Str :=
  if vis = ("command").data then (.command, [])
  else if vis = ("subcommand").data then (.subcommand, extra)
  else if vis = ("public").data then (.public, [])
  else if vis = ("private").data then (.priv, [])
  else if vis = [] then (.public, [])
  else (.public, [])   -- unknown visibility is treated as public

/-- `joinDesc` from part_010. -/
def joinDesc (existing addition : Str) : Str :=
  if existing = [] then addition else existing ++ ' ' :: addition

/-- `appendTagDescription` from part_010. -/
def appendTagDescription (result : TagResult) (text : Str) : TagResult :=
  match result with
  | .flag v => .flag { v with description := joinDesc v.description text }
  | .option v => .option { v with description := joinDesc v.description text }
  | .operand v => .operand { v with description := joinDesc v.description text }
  | .env v => .env { v with description := joinDesc v.description text }
  | .reads v => .reads { v with description := joinDesc v.description text }
  | .stdin v => .stdin { v with description := joinDesc v.description text }
  | .exit v => .exit { v with description := joinDesc v.description text }
  | .stdout v => .stdout { v with description := joinDesc v.description text }
  | .stderr v => .stderr { v with description := joinDesc v.description text }
  | .sets v => .sets { v with description := joinDesc v.description text }
  | .writes v => .writes { v with description := joinDesc v.description text }
  | .deprecated v => .deprecated { v with message := joinDesc v.message text }

/-! ## Document state machine (part_010) -/

inductive ParseState where
  | stateTop
  | stateShedoc
  | stateSheblock
deriving DecidableEq, Repr

/-- The mutable fields of the Go `parser` struct (scanner excluded:
lines are supplied as a list). -/
structure Parser where
  doc : Document := {}
  line : Nat := 0
  state : ParseState := .stateTop
  shedocTag : Str := []
  shedocLines : List Str := []
  block : Option Block := none
  blockDesc : List Str := []
  inTags : Bool := false
  currentTag : Str := []
  currentResult : Option TagResult := none
  tagContLines : List Str := []
deriving DecidableEq, Repr

/-- `applyTagToBlock` from part_010: a `switch` on the tag name whose
arms type-assert the `any` result; a failed assertion leaves the block
unchanged, exactly as in Go. -/
def applyTagToBlock (name : Str) (result : TagResult) (b : Block) : Block :=
  if name = ("flag").data then
    match result with
    | .flag v => { b with flags := b.flags ++ [v] }
    | _ => b
  else if name = ("option").data then
    match result with
    | .option v => { b with options := b.options ++ [v] }
    | _ => b
  else if name = ("operand").data then
    match result with
    | .operand v => { b with operands := b.operands ++ [v] }
    | _ => b
  else if name = ("env").data then
    match result with
    | .env v => { b with env := b.env ++ [v] }
    | _ => b
  else if name = ("reads").data then
    match result with
    | .reads v => { b with reads := b.reads ++ [v] }
    | _ => b
  else if name = ("stdin").data then
    match result with
    | .stdin v => { b with stdin := some v }
    | _ => b
  else if name = ("exit").data then
    match result with
    | .exit v => { b with exit := b.exit ++ [v] }
    | _ => b
  else if name = ("stdout").data then
    match result with
    | .stdout v => { b with stdout := some v }
    | _ => b
  else if name = ("stderr").data then
    match result with
    | .stderr v => { b with stderr := some v }
    | _ => b
  else if name = ("sets").data then
    match result with
    | .sets v => { b with sets := b.sets ++ [v] }
    | _ => b
  else if name = ("writes").data then
    match result with
    | .writes v => { b with writes := b.writes ++ [v] }
    | _ => b
  else if name = ("deprecated").data then
    match result with
    | .deprecated v => { b with deprecated := some v }
    | _ => b
  else b

/-- `setShedocMeta` from part_010. -/
def setShedocMeta (p : Parser) (tag value : Str) : Parser :=
  if tag = ("name").data then
    { p with doc := { p.doc with meta := { p.doc.meta with name := value } } }
  else if tag = ("version").data then
    { p with doc := { p.doc with meta := { p.doc.meta with version := value } } }
  else if tag = ("synopsis").data then
    { p with doc := { p.doc with meta := { p.doc.meta with synopsis := value } } }
  else if tag = ("description").data then
    { p with doc := { p.doc with meta := { p.doc.meta with description := value } } }
  else if tag = ("examples").data then
    { p with doc := { p.doc with meta := { p.doc.meta with examples := value } } }
  else if tag = ("section").data then
    { p with doc := { p.doc with meta := { p.doc.meta with manSection := value } } }
  else if tag = ("author").data then
    { p with doc := { p.doc with meta := { p.doc.meta with author := value } } }
  else if tag = ("license").data then
    { p with doc := { p.doc with meta := { p.doc.meta with license := value } } }
  else
    { p with doc := { p.doc with warnings := p.doc.warnings
        ++ [{ line := p.line, message := ("unknown shedoc tag: #?/").data ++ tag }] } }

/-- `finalizeShedoc` from part_010. -/
def finalizeShedoc (p : Parser) : Parser :=
  let p' := if p.shedocTag ≠ [] then
      setShedocMeta p p.shedocTag (joinWith [('\n')] p.shedocLines)
    else p
  { p' with shedocTag := [], shedocLines := [] }

/-- `finalizeCurrentTag` from part_010.  The Go code applies the tag to
`p.block` through a pointer; `p.block` is necessarily non-nil whenever a
tag is pending, so the `Option.map` is exact on all reachable states. -/
def finalizeCurrentTag (p : Parser) : Parser :=
  match p.currentResult with
  | none => { p with currentTag := [], currentResult := none, tagContLines := [] }
  | some r =>
    if p.currentTag = [] then
      { p with currentTag := [], currentResult := none, tagContLines := [] }
    else
      let r := if p.tagContLines ≠ [] then
          appendTagDescription r (joinWith [(' ')] p.tagContLines)
        else r
      { p with block := p.block.map (applyTagToBlock p.currentTag r),
               currentTag := [], currentResult := none, tagContLines := [] }

/-- `finalizeBlock` from part_010. -/
def finalizeBlock (p : Parser) : Parser :=
  match p.block with
  | none => p
  | some b =>
    let b := if p.blockDesc ≠ [] then
        { b with description := joinWith [('\n')] p.blockDesc }
      else b
    { p with doc := { p.doc with blocks := p.doc.blocks ++ [b] }, block := none }

/-- `handleTop` from part_010. -/
def handleTop (p : Parser) (l : Str) : Parser :=
  match matchShebang l with
  | some m => { p with doc := { p.doc with shebang := trimSpace m } }
  | none =>
  match matchShedocInline l with
  | some (tag, v) => setShedocMeta p tag (trimSpace v)
  | none =>
  match matchShedocOpen l with
  | some tag => { p with state := .stateShedoc, shedocTag := tag, shedocLines := [] }
  | none =>
  match matchSheblockOpen l with
  | some (vis, extra) =>
    let (visibility, nm) := parseSheblockHeader vis (trimSpace extra)
    { p with state := .stateSheblock,
             block := some { visibility := visibility, name := nm, line := p.line },
             blockDesc := [], inTags := false, currentTag := [],
             currentResult := none, tagContLines := [] }
  | none =>
    let funcName := matchFuncDecl l
    if funcName ≠ [] then
      match p.doc.blocks.getLast? with
      | some last =>
        if last.functionName = [] then
          { p with doc := { p.doc with blocks :=
              p.doc.blocks.dropLast ++ [{ last with functionName := funcName }] } }
        else p
      | none => p
    else p

/-- `handleShedoc` from part_010. -/
def handleShedoc (p : Parser) (l : Str) : Parser :=
  if matchBlockClose l then { finalizeShedoc p with state := .stateTop }
  else
    match matchContinuation l with
    | some m => { p with shedocLines := p.shedocLines ++ [m] }
    | none => handleTop { finalizeShedoc p with state := .stateTop } l

/-- `handleSheblock` from part_010. -/
def handleSheblock (p : Parser) (l : Str) : Parser :=
  if matchBlockClose l then
    { finalizeBlock (finalizeCurrentTag p) with state := .stateTop }
  else
    match matchContinuation l with
    | none => handleTop { finalizeBlock (finalizeCurrentTag p) with state := .stateTop } l
    | some content =>
      match splitTag content with
      | some (tagName, tagText) =>
        let p := finalizeCurrentTag p
        let p := { p with inTags := true }
        match parseTag tagName tagText p.line with
        | .error msg =>
          { p with doc := { p.doc with warnings :=
              p.doc.warnings ++ [{ line := p.line, message := msg }] } }
        | .ok result =>
          { p with currentTag := tagName, currentResult := some result,
                   tagContLines := [] }
      | none =>
        if content = [] then
          if p.currentTag ≠ [] then finalizeCurrentTag p else p
        else if p.currentTag ≠ [] then
          { p with tagContLines := p.tagContLines ++ [trimSpace content] }
        else if !p.inTags then
          { p with blockDesc := p.blockDesc ++ [content] }
        else p

/-- One iteration of the scan loop in `parse`: advance the 1-based line
counter, then dispatch on the current state. -/
def stepLine (p : Parser) (l : Str) : Parser :=
  let p := { p with line := p.line + 1 }
  match p.state with
  | .stateTop => handleTop p l
  | .stateShedoc => handleShedoc p l
  | .stateSheblock => handleSheblock p l

/-- End-of-input finalization in `parse`. -/
def finalizeEOF (p : Parser) : Parser :=
  match p.state with
  | .stateTop => p
  | .stateShedoc => finalizeShedoc p
  | .stateSheblock => finalizeBlock (finalizeCurrentTag p)

/-- `parse` from part_010, over an explicit list of scanner lines. -/
def runLines (ls : List Str) : Parser :=
  finalizeEOF (ls.foldl stepLine {})

/-- `ParseReader` from part_010; the Go function returns `(p.doc, nil)`
unconditionally, so the error component is always `none`. -/
def ParseReader (ls : List Str) : Document × Option Str :=
  ((runLines ls).doc, none)

/-- The explicit block-close marker line. -/
def closerLine : Str := (" ##").data

/-- The metadata tag names routed to a `Meta` field by `setShedocMeta`
(every other tag produces a warning). -/
def knownMetaTag (tag : Str) : Bool :=
  tag = ("name").data || tag = ("version").data || tag = ("synopsis").data ||
  tag = ("description").data || tag = ("examples").data || tag = ("section").data ||
  tag = ("author").data || tag = ("license").data

/-- Canonical rendering of a `Value` back into bracket form, following
the spec's five canonical shapes; used to state the round-trip claim. -/
def renderValue (v : Value) : Str :=
  let dots : Str := if v.variadic then ("...").data else []
  if v.required then '<' :: (v.name ++ dots) ++ ['>']
  else if v.default ≠ [] then '[' :: (v.name ++ '=' :: v.default ++ dots) ++ [']']
  else '[' :: (v.name ++ dots) ++ [']']

/-! ## Helper lemmas about the string primitives -/

theorem dropWhile_append_of_all {p : Char → Bool} {a : Str} (b : Str)
    (h : ∀ c ∈ a, p c = true) : (a ++ b).dropWhile p = b.dropWhile p := by
  rw [List.dropWhile_append, List.dropWhile_eq_nil_iff.2 h]
  rfl

theorem dropWhile_append_of_stop {p : Char → Bool} {a : Str} (b : Str)
    (h : a.dropWhile p ≠ []) : (a ++ b).dropWhile p = a.dropWhile p ++ b := by
  rw [List.dropWhile_append]
  simp [h]

theorem takeWhile_append_of_stop {p : Char → Bool} {a : Str} (b : Str)
    (h : a.dropWhile p ≠ []) : (a ++ b).takeWhile p = a.takeWhile p := by
  rw [List.takeWhile_append]
  have hne : (a.takeWhile p).length ≠ a.length := by
    intro hlen
    have heq : a.takeWhile p = a :=
      (List.takeWhile_prefix p).eq_of_length hlen
    have : a.dropWhile p = [] := by
      apply List.dropWhile_eq_nil_iff.2
      intro x hx
      exact List.takeWhile_eq_self_iff.1 heq x hx
    exact h this
  simp [hne]

theorem dropWhile_eq_self_of_head {p : Char → Bool} {c : Char} {t : Str}
    (h : p c = false) : (c :: t).dropWhile p = c :: t := by
  simp [List.dropWhile_cons, h]

theorem dropWhile_eq_self_of_all {p : Char → Bool} {a : Str}
    (h : ∀ c ∈ a, p c = false) : a.dropWhile p = a := by
  cases a with
  | nil => rfl
  | cons c t => exact dropWhile_eq_self_of_head (h c (by simp))

theorem trimRight_append_of_all {s ws : Str} (h : ∀ c ∈ ws, isGoSpace c = true) :
    trimRight (s ++ ws) = trimRight s := by
  unfold trimRight
  rw [List.reverse_append, dropWhile_append_of_all _ (by simpa using h)]

theorem trimSpace_append_of_all {s ws : Str} (h : ∀ c ∈ ws, isGoSpace c = true) :
    trimSpace (s ++ ws) = trimSpace s := by
  unfold trimSpace
  rw [trimRight_append_of_all h]

theorem trimRight_eq_self_of_all {s : Str} (h : ∀ c ∈ s, isGoSpace c = false) :
    trimRight s = s := by
  unfold trimRight
  rw [dropWhile_eq_self_of_all (by simpa using h), List.reverse_reverse]

theorem trimSpace_eq_self_of_all {s : Str} (h : ∀ c ∈ s, isGoSpace c = false) :
    trimSpace s = s := by
  unfold trimSpace trimLeft
  rw [trimRight_eq_self_of_all h, dropWhile_eq_self_of_all h]

theorem trimSpace_of_ends {c d : Char} {t : Str}
    (hc : isGoSpace c = false) (hd : isGoSpace d = false) :
    trimSpace (c :: t ++ [d]) = c :: t ++ [d] := by
  unfold trimSpace trimRight trimLeft
  rw [show (c :: t ++ [d]).reverse = d :: (c :: t).reverse by simp]
  rw [dropWhile_eq_self_of_head hd]
  rw [show (d :: (c :: t).reverse).reverse = c :: (t ++ [d]) by simp]
  rw [dropWhile_eq_self_of_head hc]
  simp

theorem indexWhere_eq_none {q : Char → Bool} {a : Str}
    (h : ∀ c ∈ a, q c = false) : indexWhere q a = none := by
  induction a with
  | nil => rfl
  | cons c t ih =>
    simp only [indexWhere, h c (by simp),
      ih (fun d hd => h d (by simp [hd]))]
    rfl

theorem indexWhere_append {q : Char → Bool} {a : Str} (b : Str)
    (h : ∀ c ∈ a, q c = false) :
    indexWhere q (a ++ b) = (indexWhere q b).map (· + a.length) := by
  induction a with
  | nil => simp
  | cons c t ih =>
    have hc := h c (by simp)
    have ht := ih (fun d hd => h d (by simp [hd]))
    have hstep : indexWhere q (c :: (t ++ b)) =
        (indexWhere q (t ++ b)).map (· + 1) := by
      simp only [indexWhere, hc]
      simp
    simp only [List.cons_append, hstep, ht]
    cases indexWhere q b with
    | none => rfl
    | some n =>
      simp only [Option.map, List.length_cons, Option.some.injEq]
      omega

theorem indexAnySpTab_eq_none {a : Str}
    (h : ∀ c ∈ a, (c = ' ' || c = '\t') = false) : indexAnySpTab a = none :=
  indexWhere_eq_none h

theorem indexAnySpTab_append {a : Str} (b : Str)
    (h : ∀ c ∈ a, (c = ' ' || c = '\t') = false) :
    indexAnySpTab (a ++ b) = (indexAnySpTab b).map (· + a.length) :=
  indexWhere_append b h

theorem indexEq_eq_none {a : Str} (h : ∀ c ∈ a, decide (c = '=') = false) :
    indexEq a = none :=
  indexWhere_eq_none h

theorem indexEq_append {a : Str} (b : Str)
    (h : ∀ c ∈ a, decide (c = '=') = false) :
    indexEq (a ++ b) = (indexEq b).map (· + a.length) :=
  indexWhere_append b h

theorem sptab_false_of_goSpace {c : Char} (h : isGoSpace c = false) :
    (c = ' ' || c = '\t') = false := by
  unfold isGoSpace at h
  simp only [Bool.or_eq_false_iff, decide_eq_false_iff_not] at h ⊢
  exact ⟨h.1.1.1.1.1, h.1.1.1.1.2⟩

theorem splitFirstToken_of_clean {s : Str} (hs : trimSpace s = s)
    (hn : indexAnySpTab s = none) : splitFirstToken s = (s, []) := by
  unfold splitFirstToken
  rw [hs]
  simp only [hn]

theorem splitFirstToken_split {tok rest : Str}
    (h1 : trimSpace (tok ++ ' ' :: rest) = tok ++ ' ' :: rest)
    (h2 : ∀ c ∈ tok, isGoSpace c = false) :
    splitFirstToken (tok ++ ' ' :: rest) = (tok, rest) := by
  unfold splitFirstToken
  rw [h1]
  dsimp only
  rw [indexAnySpTab_append _ (fun c hc => sptab_false_of_goSpace (h2 c hc))]
  have h0 : indexAnySpTab (' ' :: rest) = some 0 := by
    simp [indexAnySpTab, indexWhere]
  rw [h0]
  simp only [Option.map, Nat.zero_add]
  have htake : (tok ++ ' ' :: rest).take tok.length = tok := List.take_left tok _
  have hdrop : (tok ++ ' ' :: rest).drop (tok.length + 1) = rest := by
    have : tok ++ ' ' :: rest = (tok ++ [' ']) ++ rest := by simp
    rw [this, show tok.length + 1 = (tok ++ [' ']).length by simp]
    exact List.drop_left _ _
  rw [htake, hdrop]

theorem trimRight_cons {c : Char} {t : Str} (hc : isGoSpace c = false) :
    trimRight (c :: t) = c :: trimRight t := by
  unfold trimRight
  rw [show (c :: t).reverse = t.reverse ++ [c] by simp]
  rw [List.dropWhile_append]
  by_cases h : t.reverse.dropWhile isGoSpace = []
  · simp [h, dropWhile_eq_self_of_head hc]
  · simp [h]

theorem trimSpace_cons {c : Char} {t : Str} (hc : isGoSpace c = false) :
    trimSpace (c :: t) = c :: trimRight t := by
  unfold trimSpace trimLeft
  rw [trimRight_cons hc, dropWhile_eq_self_of_head hc]

theorem trimRight_concat {d : Char} {t : Str} (hd : isGoSpace d = false) :
    trimRight (t ++ [d]) = t ++ [d] := by
  unfold trimRight
  rw [show (t ++ [d]).reverse = d :: t.reverse by simp]
  rw [dropWhile_eq_self_of_head hd]
  simp

theorem trimSpace_eq_self_of_getLast {s : Str} {c d : Char}
    (hh : s.head? = some c) (hc : isGoSpace c = false)
    (hl : s.getLast? = some d) (hd : isGoSpace d = false) :
    trimSpace s = s := by
  obtain ⟨t, rfl⟩ : ∃ t, s = t ++ [d] := by
    rcases List.getLast?_eq_some_iff.1 hl with ⟨t, ht⟩
    exact ⟨t, ht⟩
  unfold trimSpace
  rw [trimRight_concat hd]
  unfold trimLeft
  cases t with
  | nil =>
    rw [List.nil_append]
    exact dropWhile_eq_self_of_head hd
  | cons x xs =>
    have hxc : isGoSpace x = false := by
      have : x = c := by simpa using hh
      rw [this]
      exact hc
    rw [show (x :: xs) ++ [d] = x :: (xs ++ [d]) by simp]
    exact dropWhile_eq_self_of_head hxc

theorem contTail_space {r : Str} : contTail (' ' :: r) = r := rfl

theorem contTail_cons_ne {c : Char} {t : Str} (h : c ≠ ' ') :
    contTail (c :: t) = c :: t := by
  unfold contTail
  split
  · next heq =>
    rw [List.cons.injEq] at heq
    exact absurd heq.1 h
  · rfl

theorem contTail_nil : contTail [] = [] := rfl

/-- Appending to a nonempty continuation body appends to its capture. -/
theorem contTail_append {r : Str} (ws : Str) (h : r ≠ []) :
    contTail (r ++ ws) = contTail r ++ ws := by
  cases r with
  | nil => exact absurd rfl h
  | cons c t =>
    by_cases hc : c = ' '
    · subst hc
      simp [contTail_space]
    · rw [show (c :: t) ++ ws = c :: (t ++ ws) by simp]
      rw [contTail_cons_ne hc, contTail_cons_ne hc]
      simp

/-- A continuation line whose capture parses as an `@tag` line is never
the block-close marker (the capture of ` ##...` always starts with `#`,
while a tag capture starts with `@` after trimming). -/
theorem not_close_of_splitTag {l c : Str} {nt : Str × Str}
    (hcont : matchContinuation l = some c) (hsplit : splitTag c = some nt) :
    matchBlockClose l = false := by
  unfold matchContinuation at hcont
  unfold matchBlockClose
  split
  · next r tail =>
    have hcont' : some (contTail ('#' :: tail)) = some c := hcont
    rw [contTail_cons_ne (by decide)] at hcont'
    have hc : c = '#' :: tail := (Option.some.inj hcont').symm
    have hnone : splitTag (('#' : Char) :: tail) = none := by
      unfold splitTag
      rw [trimSpace_cons (by decide)]
      rfl
    rw [hc, hnone] at hsplit
    cases hsplit
  · rfl

theorem finalizeCurrentTag_doc (p : Parser) : (finalizeCurrentTag p).doc = p.doc := by
  unfold finalizeCurrentTag
  split
  · simp
  · split
    · simp
    · simp

theorem finalizeCurrentTag_line (p : Parser) : (finalizeCurrentTag p).line = p.line := by
  unfold finalizeCurrentTag
  split
  · simp
  · split
    · simp
    · simp

/-! Lines recognized as function declarations never begin with `#`, so
on such lines the four `#`-anchored matchers of `handleTop` all fail. -/

theorem matchShebang_not_hash {l : Str} (h : ∀ t, l ≠ '#' :: t) :
    matchShebang l = none := by
  unfold matchShebang
  split
  · next rest => exact absurd rfl (h _)
  · rfl

theorem matchShedocInline_not_hash {l : Str} (h : ∀ t, l ≠ '#' :: t) :
    matchShedocInline l = none := by
  unfold matchShedocInline
  split
  · next r => exact absurd rfl (h _)
  · rfl

theorem matchShedocOpen_not_hash {l : Str} (h : ∀ t, l ≠ '#' :: t) :
    matchShedocOpen l = none := by
  unfold matchShedocOpen
  split
  · next r => exact absurd rfl (h _)
  · rfl

theorem matchSheblockOpen_not_hash {l : Str} (h : ∀ t, l ≠ '#' :: t) :
    matchSheblockOpen l = none := by
  unfold matchSheblockOpen
  split
  · next r => exact absurd rfl (h _)
  · rfl

theorem matchFuncDecl_not_hash {l : Str} (hf : matchFuncDecl l ≠ []) :
    ∀ t, l ≠ '#' :: t := by
  intro t hlt
  subst hlt
  exact hf rfl

/-! ## Claim theorems -/

/-- Claim C6: within one documentation block the singular tags stdin,
stdout, stderr and deprecated overwrite on repetition, while the
collection tags flags, options, operands, env, reads, exit, sets and
writes append, preserving encounter order; concretely, a block with two
`@stdout` lines keeps only the second. -/
theorem c6_singular_overwrite_collections_append :
    (∀ (b : Block) (r1 r2 : Stdin),
      (applyTagToBlock (("stdin").data) (.stdin r2)
        (applyTagToBlock (("stdin").data) (.stdin r1) b)).stdin = some r2) ∧
    (∀ (b : Block) (r1 r2 : Stdout),
      (applyTagToBlock (("stdout").data) (.stdout r2)
        (applyTagToBlock (("stdout").data) (.stdout r1) b)).stdout = some r2) ∧
    (∀ (b : Block) (r1 r2 : Stderr),
      (applyTagToBlock (("stderr").data) (.stderr r2)
        (applyTagToBlock (("stderr").data) (.stderr r1) b)).stderr = some r2) ∧
    (∀ (b : Block) (r1 r2 : Deprecated),
      (applyTagToBlock (("deprecated").data) (.deprecated r2)
        (applyTagToBlock (("deprecated").data) (.deprecated r1) b)).deprecated = some r2) ∧
    (∀ (b : Block) (r1 r2 : Flag),
      (applyTagToBlock (("flag").data) (.flag r2)
        (applyTagToBlock (("flag").data) (.flag r1) b)).flags = b.flags ++ [r1, r2]) ∧
    (∀ (b : Block) (r1 r2 : OptionTag),
      (applyTagToBlock (("option").data) (.option r2)
        (applyTagToBlock (("option").data) (.option r1) b)).options = b.options ++ [r1, r2]) ∧
    (∀ (b : Block) (r1 r2 : Operand),
      (applyTagToBlock (("operand").data) (.operand r2)
        (applyTagToBlock (("operand").data) (.operand r1) b)).operands = b.operands ++ [r1, r2]) ∧
    (∀ (b : Block) (r1 r2 : Env),
      (applyTagToBlock (("env").data) (.env r2)
        (applyTagToBlock (("env").data) (.env r1) b)).env = b.env ++ [r1, r2]) ∧
    (∀ (b : Block) (r1 r2 : Reads),
      (applyTagToBlock (("reads").data) (.reads r2)
        (applyTagToBlock (("reads").data) (.reads r1) b)).reads = b.reads ++ [r1, r2]) ∧
    (∀ (b : Block) (r1 r2 : Exit),
      (applyTagToBlock (("exit").data) (.exit r2)
        (applyTagToBlock (("exit").data) (.exit r1) b)).exit = b.exit ++ [r1, r2]) ∧
    (∀ (b : Block) (r1 r2 : Sets),
      (applyTagToBlock (("sets").data) (.sets r2)
        (applyTagToBlock (("sets").data) (.sets r1) b)).sets = b.sets ++ [r1, r2]) ∧
    (∀ (b : Block) (r1 r2 : Writes),
      (applyTagToBlock (("writes").data) (.writes r2)
        (applyTagToBlock (("writes").data) (.writes r1) b)).writes = b.writes ++ [r1, r2]) ∧
    (ParseReader [("#@/command").data, (" # @stdout first").data,
        (" # @stdout second").data, closerLine]).1.blocks.map (·.stdout)
      = [some { description := ("second").data, line := 3 }] := by
  refine ⟨?_, ?_, ?_, ?_, ?_, ?_, ?_, ?_, ?_, ?_, ?_, ?_, ?_⟩
  · intro b r1 r2
    simp [applyTagToBlock]
  · intro b r1 r2
    simp [applyTagToBlock]
  · intro b r1 r2
    simp [applyTagToBlock]
  · intro b r1 r2
    simp [applyTagToBlock]
  · intro b r1 r2
    simp [applyTagToBlock]
  · intro b r1 r2
    simp [applyTagToBlock]
  · intro b r1 r2
    simp [applyTagToBlock]
  · intro b r1 r2
    simp [applyTagToBlock]
  · intro b r1 r2
    simp [applyTagToBlock]
  · intro b r1 r2
    simp [applyTagToBlock]
  · intro b r1 r2
    simp [applyTagToBlock]
  · intro b r1 r2
    simp [applyTagToBlock]
  · decide

/-- Claim C10: inside a documentation block, a blank continuation line
before any tag leaves the parser state unchanged (interior blank lines
contribute nothing to the description), and a non-blank continuation
line arriving after tags have begun while no tag is pending is silently
discarded. -/
theorem c10_blank_and_orphan_continuations :
    (∀ (p : Parser) (l : Str),
      (l = ((" #").data) ∨ l = ((" # ").data)) → p.currentTag = [] →
      handleSheblock p l = p) ∧
    (∀ (p : Parser) (l c : Str),
      matchBlockClose l = false → matchContinuation l = some c →
      splitTag c = none → c ≠ [] → p.currentTag = [] → p.inTags = true →
      handleSheblock p l = p) := by
  constructor
  · rintro p l (rfl | rfl) hct
    · show (if p.currentTag ≠ [] then finalizeCurrentTag p else p) = p
      simp [hct]
    · show (if p.currentTag ≠ [] then finalizeCurrentTag p else p) = p
      simp [hct]
  · intro p l c hclose hcont hsplit hc hct hin
    simp [handleSheblock, hclose, hcont, hsplit, hc, hct, hin]

/-- Witness for C10 at concrete inputs: a blank continuation line and an
orphan continuation line each leave the parser unchanged. -/
theorem c10_blank_and_orphan_continuations_witness :
    handleSheblock {} ((" #").data) = ({} : Parser) ∧
    handleSheblock { inTags := true } ((" # orphan text").data)
      = ({ inTags := true } : Parser) := by
  constructor
  · exact c10_blank_and_orphan_continuations.1 {} ((" #").data) (Or.inl rfl) (by decide)
  · exact c10_blank_and_orphan_continuations.2 { inTags := true }
      ((" # orphan text").data) (("orphan text").data)
      (by decide) (by decide) (by decide) (by decide) (by decide) (by decide)

/-- Claim C2: a line that is neither a continuation line nor the block
close marker, processed inside a metadata block or a documentation
block, yields exactly the parser state and document obtained by first
processing the explicit close marker and then processing that same line
at top level — the interrupting line is never consumed by the block. -/
theorem c2_interrupt_equals_close_then_reprocess :
    ∀ (p : Parser) (l : Str),
      matchBlockClose l = false → matchContinuation l = none →
      handleShedoc p l = handleTop (handleShedoc p closerLine) l ∧
      handleSheblock p l = handleTop (handleSheblock p closerLine) l := by
  intro p l h1 h2
  constructor
  · rw [show handleShedoc p closerLine
        = { finalizeShedoc p with state := .stateTop } from rfl]
    simp [handleShedoc, h1, h2]
  · rw [show handleSheblock p closerLine
        = { finalizeBlock (finalizeCurrentTag p) with state := .stateTop } from rfl]
    simp [handleSheblock, h1, h2]

/-- Witness for C2 at a concrete interrupting line. -/
theorem c2_interrupt_equals_close_then_reprocess_witness :
    handleShedoc {} (("echo hi").data)
      = handleTop (handleShedoc {} closerLine) (("echo hi").data) ∧
    handleSheblock {} (("echo hi").data)
      = handleTop (handleSheblock {} closerLine) (("echo hi").data) :=
  c2_interrupt_equals_close_then_reprocess {} (("echo hi").data)
    (by decide) (by decide)

/-- Claim C5 counterexample: the line immediately following block
closure (`echo hi`) is not a function declaration, yet the later
declaration line `cmd_push() {` still binds, so FunctionName is not
bound only by scanning the line immediately following closure, and a
block followed by unrelated code does not stay unbound. -/
theorem c5_counterexample :
    matchFuncDecl (("echo hi").data) = [] ∧
    (ParseReader [("#@/command").data, closerLine, ("echo hi").data,
        ("cmd_push() \x7b").data]).1.blocks.map (·.functionName)
      = [("cmd_push").data] := by
  decide

/-- Claim C5 (amended): FunctionName is bound by the first
function-declaration line seen at top level after the block is
finalized, not necessarily the line immediately following closure: a
declaration line binds to the last finalized block exactly when that
block is still unbound, a bound block is never overwritten, a block
immediately followed by a declaration binds it, and a block whose
following lines contain no declaration stays unbound. -/
theorem c5_function_binding_amended :
    (∀ (p : Parser) (l : Str) (pre : List Block) (last : Block),
      matchFuncDecl l ≠ [] → p.doc.blocks = pre ++ [last] →
      last.functionName = [] →
      handleTop p l =
        { p with doc := { p.doc with blocks :=
            pre ++ [{ last with functionName := matchFuncDecl l }] } }) ∧
    (∀ (p : Parser) (l : Str) (pre : List Block) (last : Block),
      matchFuncDecl l ≠ [] → p.doc.blocks = pre ++ [last] →
      last.functionName ≠ [] →
      handleTop p l = p) ∧
    (ParseReader [("#@/command").data, closerLine,
        ("cmd_push() \x7b").data]).1.blocks.map (·.functionName)
      = [("cmd_push").data] ∧
    (ParseReader [("#@/command").data, closerLine,
        ("echo hi").data]).1.blocks.map (·.functionName) = [[]] := by
  refine ⟨?_, ?_, by decide, by decide⟩
  · intro p l pre last hf hb hempty
    have hh := matchFuncDecl_not_hash hf
    simp only [handleTop, matchShebang_not_hash hh, matchShedocInline_not_hash hh,
      matchShedocOpen_not_hash hh, matchSheblockOpen_not_hash hh]
    simp only [hf, if_true, hb]
    simp [List.getLast?_concat, hempty, List.dropLast_concat]
    intro hcontra
    exact absurd hcontra hf
  · intro p l pre last hf hb hset
    have hh := matchFuncDecl_not_hash hf
    simp only [handleTop, matchShebang_not_hash hh, matchShedocInline_not_hash hh,
      matchShedocOpen_not_hash hh, matchSheblockOpen_not_hash hh]
    simp [hf, hb, List.getLast?_concat, hset]

/-- Witness for the amended C5: a declaration line binds an unbound last
block and leaves a bound one untouched. -/
theorem c5_function_binding_amended_witness :
    handleTop { doc := { blocks := [{ line := 1 }] } } (("cmd_push() \x7b").data)
      = { doc := { blocks :=
          [{ line := 1, functionName := ("cmd_push").data }] } } ∧
    handleTop { doc := { blocks := [{ line := 1, functionName := ("other").data }] } }
        (("cmd_push() \x7b").data)
      = { doc := { blocks := [{ line := 1, functionName := ("other").data }] } } := by
  constructor
  · have h := c5_function_binding_amended.1
      { doc := { blocks := [{ line := 1 }] } } (("cmd_push() \x7b").data)
      [] { line := 1 } (by decide) (by decide) (by decide)
    rw [h]
    decide
  · exact c5_function_binding_amended.2.1
      { doc := { blocks := [{ line := 1, functionName := ("other").data }] } }
      (("cmd_push() \x7b").data) [] { line := 1, functionName := ("other").data }
      (by decide) (by decide) (by decide)

/-- Claim C1: ParseReader always returns a Document with a nil error no
matter the comment content; a tag line whose tag parser rejects appends
exactly one Warning carrying the current 1-based source line number,
leaves the document and in-progress block otherwise untouched apart from
finalizing the previously pending tag (the offending tag attaches no
record and leaves no pending record), and parsing continues — shown end
to end on a block where a malformed tag sits between two well-formed
tags that are both still populated. -/
theorem c1_malformed_tags_warn_and_continue :
    (∀ ls : List Str, (ParseReader ls).2 = none) ∧
    (∀ (p : Parser) (l c tagName tagText msg : Str),
      matchContinuation l = some c →
      splitTag c = some (tagName, tagText) →
      parseTag tagName tagText p.line = .error msg →
      handleSheblock p l =
        { finalizeCurrentTag p with
            inTags := true,
            doc := { p.doc with warnings := p.doc.warnings
              ++ [{ line := p.line, message := msg }] } }) ∧
    (ParseReader [("#@/command").data, (" # @flag -v Verbose").data,
        (" # @bogus stuff").data, (" # @exit 0 Success").data, closerLine]).1
      = { blocks := [{
            visibility := .command,
            line := 1,
            flags := [{ short := ("-v").data, description := ("Verbose").data, line := 2 }],
            exit := [{ code := ("0").data, description := ("Success").data, line := 4 }] }],
          warnings := [{ line := 3, message := ("unknown tag @bogus").data }] } := by
  refine ⟨fun ls => rfl, ?_, by decide⟩
  intro p l c tagName tagText msg hcont hsplit herr
  have hclose := not_close_of_splitTag hcont hsplit
  simp only [handleSheblock, hclose, hcont, hsplit]
  simp [finalizeCurrentTag_doc, finalizeCurrentTag_line, herr]

/-- Witness for C1's step property at a concrete malformed tag line. -/
theorem c1_malformed_tags_warn_and_continue_witness :
    handleSheblock {} ((" # @bogus stuff").data) =
      { finalizeCurrentTag {} with
          inTags := true,
          doc := { ({} : Parser).doc with warnings := ({} : Parser).doc.warnings
            ++ [{ line := ({} : Parser).line,
                  message := ("unknown tag @bogus").data }] } } :=
  c1_malformed_tags_warn_and_continue.2.1 {} ((" # @bogus stuff").data)
    (("@bogus stuff").data) (("bogus").data) (("stuff").data)
    (("unknown tag @bogus").data) (by decide) (by decide) rfl

theorem startsWith_dash_of_dashdash {x : Str}
    (h : startsWith x (("--").data) = true) : startsWith x (("-").data) = true := by
  unfold startsWith at h ⊢
  rw [List.isPrefixOf_iff_prefix] at h ⊢
  exact (show (("-").data) <+: (("--").data) from ⟨("-").data, by decide⟩).trans h

/-- Claim C7 counterexample: tag text `hello` contains no flag spelling,
yet parseFlag succeeds (with the whole text as description) instead of
returning an error. -/
theorem c7_counterexample :
    parseFlag (("hello").data) 1
      = .ok { short := [], long := [], description := ("hello").data, line := 1 } :=
  rfl

/-- Claim C7 (amended): the flag tag parser stops consuming flag
spellings at the first token that is not a flag spelling or a `|`
separator and treats everything remaining as the description, but it
fails only when the tag text is empty after trimming; non-empty text
with no flag spelling yields a Flag with no spellings whose description
is the whole text. -/
theorem c7_flag_consumption_amended :
    (∀ (t : Str) (n : Nat), trimSpace t = [] →
      parseFlag t n = .error (("@flag requires at least one flag name").data)) ∧
    (∀ (t s l : Str), startsWith (trimSpace t) (("-").data) = false →
      consumeFlags t s l = (trimSpace t, s, l)) ∧
    (∀ (t : Str) (n : Nat), trimSpace t = t → t ≠ [] →
      startsWith t (("-").data) = false →
      parseFlag t n = .ok { short := [], long := [], description := t, line := n }) := by
  refine ⟨?_, ?_, ?_⟩
  · intro t n he
    unfold parseFlag
    rw [he]
    simp
  · intro t s l hdash
    have hdd : startsWith (trimSpace t) (("--").data) = false := by
      cases hx : startsWith (trimSpace t) (("--").data)
      · rfl
      · rw [startsWith_dash_of_dashdash hx] at hdash
        cases hdash
    unfold consumeFlags
    by_cases he : trimSpace t = []
    · simp only [consumeFlagsAux, he]
      simp
    · simp only [consumeFlagsAux]
      simp [he, hdd, hdash]
  · intro t n hself hne hdash
    have hdd : startsWith t (("--").data) = false := by
      cases hx : startsWith t (("--").data)
      · rfl
      · rw [startsWith_dash_of_dashdash hx] at hdash
        cases hdash
    have hb : consumeFlags t [] [] = (t, [], []) := by
      unfold consumeFlags
      simp only [consumeFlagsAux]
      simp [hself, hne, hdd, hdash]
    unfold parseFlag
    rw [hself]
    simp only [hne, if_false]
    rw [hb]
    simp [hself]

/-- Witness for the amended C7 at concrete tag texts. -/
theorem c7_flag_consumption_amended_witness :
    parseFlag (("  ").data) 1
      = .error (("@flag requires at least one flag name").data) ∧
    consumeFlags (("hello world").data) [] []
      = (("hello world").data, [], []) ∧
    parseFlag (("hello world").data) 2
      = .ok { short := [], long := [],
              description := ("hello world").data, line := 2 } := by
  refine ⟨?_, ?_, ?_⟩
  · exact c7_flag_consumption_amended.1 (("  ").data) 1 (by decide)
  · exact c7_flag_consumption_amended.2.1 (("hello world").data) [] [] (by decide)
  · exact c7_flag_consumption_amended.2.2 (("hello world").data) 2
      (by decide) (by decide) (by decide)

theorem trimRight_self_getLast {s : Str} {d : Char}
    (hl : s.getLast? = some d) (hd : isGoSpace d = false) : trimRight s = s := by
  obtain ⟨t, rfl⟩ : ∃ t, s = t ++ [d] := by
    rcases List.getLast?_eq_some_iff.1 hl with ⟨t, ht⟩
    exact ⟨t, ht⟩
  exact trimRight_concat hd

theorem getLast?_append_right {A B : Str} (hB : B ≠ []) :
    (A ++ B).getLast? = B.getLast? := by
  rw [List.getLast?_append]
  cases hbg : B.getLast? with
  | none => exact absurd (List.getLast?_eq_none_iff.1 hbg) hB
  | some d => simp

theorem getLast?_nonspace {x : Str} {c : Char}
    (hc : isGoSpace c = false) (hx : ∀ e ∈ x, isGoSpace e = false) :
    ∃ d, (c :: x).getLast? = some d ∧ isGoSpace d = false := by
  refine ⟨(c :: x).getLast (by simp), List.getLast?_eq_getLast _ _, ?_⟩
  have hmem := List.getLast_mem (show (c :: x) ≠ [] by simp)
  rcases List.mem_cons.1 hmem with h | h
  · rw [h]
    exact hc
  · exact hx _ h

theorem startsWith_dashdash_false {Y : Str} (h : Y.head? ≠ some '-') :
    startsWith ('-' :: Y) (("--").data) = false := by
  unfold startsWith
  rw [Bool.eq_false_iff]
  intro hpre
  rw [List.isPrefixOf_iff_prefix] at hpre
  rcases List.cons_prefix_cons.1 hpre with ⟨-, h2⟩
  cases Y with
  | nil => simp at h2
  | cons a y =>
    rcases List.cons_prefix_cons.1 h2 with ⟨ha, -⟩
    exact h (by rw [List.head?_cons, ← ha])

theorem startsWith_dash_true (Y : Str) :
    startsWith ('-' :: Y) (("-").data) = true := by
  unfold startsWith
  rw [List.isPrefixOf_iff_prefix]
  exact List.cons_prefix_cons.2 ⟨rfl, List.nil_prefix⟩

theorem startsWith_dashdash_true (Y : Str) :
    startsWith ('-' :: '-' :: Y) (("--").data) = true := by
  unfold startsWith
  rw [List.isPrefixOf_iff_prefix]
  exact List.cons_prefix_cons.2 ⟨rfl, List.cons_prefix_cons.2 ⟨rfl, List.nil_prefix⟩⟩

theorem trimSpace_clean_token {x : Str} {c : Char}
    (hc : isGoSpace c = false) (hx : ∀ e ∈ x, isGoSpace e = false) :
    trimSpace (c :: x) = c :: x := by
  obtain ⟨d, hld, hd⟩ := getLast?_nonspace hc hx
  exact trimSpace_eq_self_of_getLast (by rw [List.head?_cons]) hc hld hd

set_option maxHeartbeats 1000000 in
/-- Two short spellings separated by a pipe: both iterations of the
`consumeFlags` loop write the short slot, so the second overwrites the
first. -/
theorem consumeFlags_pipe_short_short (u1 u2 short0 long0 : Str)
    (hu1 : ∀ c ∈ u1, isGoSpace c = false) (hu2 : ∀ c ∈ u2, isGoSpace c = false)
    (hh1 : u1.head? ≠ some '-') (hh2 : u2.head? ≠ some '-') :
    consumeFlags (('-' :: u1) ++ (" | ").data ++ ('-' :: u2)) short0 long0
      = ([], '-' :: u2, long0) := by
  set X : Str := ('-' :: u1) ++ (" | ").data ++ ('-' :: u2) with hX
  clear_value X
  obtain ⟨d, hld2, hd2⟩ := getLast?_nonspace (show isGoSpace '-' = false by decide) hu2
  have hlX : X.getLast? = some d := by
    rw [hX, show ('-' :: u1) ++ (" | ").data ++ ('-' :: u2)
        = (('-' :: u1) ++ (" | ").data) ++ ('-' :: u2) by simp]
    rw [getLast?_append_right (by simp)]
    exact hld2
  have htrimX : trimSpace X = X := by
    have hhX : X.head? = some '-' := by
      rw [hX]
      rfl
    exact trimSpace_eq_self_of_getLast hhX (by decide) hlX hd2
  have hsplit1 : splitFirstToken X = ('-' :: u1, '|' :: ' ' :: '-' :: u2) := by
    have hform : X = ('-' :: u1) ++ ' ' :: ('|' :: ' ' :: '-' :: u2) := by
      rw [hX]
      simp
    rw [hform] at htrimX ⊢
    refine splitFirstToken_split htrimX ?_
    intro c hc
    rcases List.mem_cons.1 hc with h | h
    · rw [h]
      decide
    · exact hu1 _ h
  have htc : trimSpace ('|' :: ' ' :: '-' :: u2) = '|' :: ' ' :: '-' :: u2 := by
    refine trimSpace_eq_self_of_getLast (by rw [List.head?_cons]) (by decide) ?_ hd2
    rw [show ('|' :: ' ' :: '-' :: u2 : Str) = ['|', ' '] ++ ('-' :: u2) by simp]
    rw [getLast?_append_right (by simp)]
    exact hld2
  have htd : trimSpace (' ' :: '-' :: u2) = '-' :: u2 := by
    unfold trimSpace
    rw [trimRight_self_getLast (show ((' ' :: '-' :: u2 : Str)).getLast? = some d by
        rw [show (' ' :: '-' :: u2 : Str) = [' '] ++ ('-' :: u2) by simp]
        rw [getLast?_append_right (by simp)]
        exact hld2) hd2]
    show List.dropWhile isGoSpace (' ' :: '-' :: u2) = '-' :: u2
    rw [List.dropWhile_cons]
    simp only [show isGoSpace ' ' = true by decide, if_true]
    exact dropWhile_eq_self_of_head (by decide)
  have htok2 : splitFirstToken ('-' :: u2) = ('-' :: u2, []) := by
    refine splitFirstToken_of_clean (trimSpace_clean_token (by decide) hu2) ?_
    apply indexWhere_eq_none
    intro c hc
    rcases List.mem_cons.1 hc with h | h
    · rw [h]
      decide
    · exact sptab_false_of_goSpace (hu2 _ h)
  have hXcons : X = '-' :: (u1 ++ ((" | ").data ++ ('-' :: u2))) := by
    rw [hX]
    simp
  have hne : ¬(X = []) := by
    rw [hXcons]
    simp
  have hdd : startsWith X (("--").data) = false := by
    rw [hXcons]
    apply startsWith_dashdash_false
    cases u1 with
    | nil =>
      intro hcon
      rw [List.nil_append] at hcon
      rw [show (((" | ").data ++ ('-' :: u2) : Str)).head? = some ' ' from rfl] at hcon
      exact absurd hcon (by decide)
    | cons a y =>
      simp only [List.cons_append, List.head?_cons]
      intro hcon
      exact hh1 (by rw [List.head?_cons]; exact hcon)
  have hds : startsWith X (("-").data) = true := by
    rw [hXcons]
    exact startsWith_dash_true _
  have hdd2 : startsWith ('-' :: u2) (("--").data) = false := startsWith_dashdash_false hh2
  have hds2 : startsWith ('-' :: u2) (("-").data) = true := startsWith_dash_true _
  have hpipe : startsWith ('|' :: ' ' :: '-' :: u2) (("|").data) = true := rfl
  have hpipe2 : startsWith ([] : Str) (("|").data) = false := rfl
  have htrimnil : trimSpace ([] : Str) = [] := rfl
  have hne2 : ¬(('-' :: u2 : Str) = []) := by simp
  unfold consumeFlags
  rw [htrimX]
  generalize hgen : X.length = m0
  simp only [consumeFlagsAux]
  simp only [hne, hdd, hds, hsplit1, htc, hpipe, htd, List.drop_succ_cons,
    List.drop_zero, if_true, if_false, Bool.false_eq_true, ite_false, ite_true]
  obtain ⟨k, hk⟩ : ∃ k, m0 = k + 1 := by
    refine ⟨m0 - 1, ?_⟩
    rw [← hgen, hXcons]
    simp
  rw [hk]
  simp only [consumeFlagsAux]
  simp only [hne2, hdd2, hds2, htok2, htrimnil, hpipe2, if_true, if_false,
    Bool.false_eq_true, ite_false, ite_true]

set_option maxHeartbeats 1000000 in
/-- Two long spellings separated by a pipe: both iterations write the
long slot, so the second overwrites the first. -/
theorem consumeFlags_pipe_long_long (v1 v2 short0 long0 : Str)
    (hv1 : ∀ c ∈ v1, isGoSpace c = false) (hv2 : ∀ c ∈ v2, isGoSpace c = false) :
    consumeFlags (('-' :: '-' :: v1) ++ (" | ").data ++ ('-' :: '-' :: v2)) short0 long0
      = ([], short0, '-' :: '-' :: v2) := by
  set X : Str := ('-' :: '-' :: v1) ++ (" | ").data ++ ('-' :: '-' :: v2) with hX
  clear_value X
  have hv2' : ∀ e ∈ ('-' :: v2 : Str), isGoSpace e = false := by
    intro e he
    rcases List.mem_cons.1 he with h | h
    · rw [h]
      decide
    · exact hv2 _ h
  obtain ⟨d, hld2, hd2⟩ := getLast?_nonspace (show isGoSpace '-' = false by decide) hv2'
  have hlX : X.getLast? = some d := by
    rw [hX, show ('-' :: '-' :: v1) ++ (" | ").data ++ ('-' :: '-' :: v2)
        = (('-' :: '-' :: v1) ++ (" | ").data) ++ ('-' :: '-' :: v2) by simp]
    rw [getLast?_append_right (by simp)]
    exact hld2
  have htrimX : trimSpace X = X := by
    have hhX : X.head? = some '-' := by
      rw [hX]
      rfl
    exact trimSpace_eq_self_of_getLast hhX (by decide) hlX hd2
  have hsplit1 : splitFirstToken X = ('-' :: '-' :: v1, '|' :: ' ' :: '-' :: '-' :: v2) := by
    have hform : X = ('-' :: '-' :: v1) ++ ' ' :: ('|' :: ' ' :: '-' :: '-' :: v2) := by
      rw [hX]
      simp
    rw [hform] at htrimX ⊢
    refine splitFirstToken_split htrimX ?_
    intro c hc
    rcases List.mem_cons.1 hc with h | h
    · rw [h]
      decide
    · rcases List.mem_cons.1 h with h2 | h2
      · rw [h2]
        decide
      · exact hv1 _ h2
  have htc : trimSpace ('|' :: ' ' :: '-' :: '-' :: v2) = '|' :: ' ' :: '-' :: '-' :: v2 := by
    refine trimSpace_eq_self_of_getLast (by rw [List.head?_cons]) (by decide) ?_ hd2
    rw [show ('|' :: ' ' :: '-' :: '-' :: v2 : Str) = ['|', ' '] ++ ('-' :: '-' :: v2) by simp]
    rw [getLast?_append_right (by simp)]
    exact hld2
  have htd : trimSpace (' ' :: '-' :: '-' :: v2) = '-' :: '-' :: v2 := by
    unfold trimSpace
    rw [trimRight_self_getLast (show ((' ' :: '-' :: '-' :: v2 : Str)).getLast? = some d by
        rw [show (' ' :: '-' :: '-' :: v2 : Str) = [' '] ++ ('-' :: '-' :: v2) by simp]
        rw [getLast?_append_right (by simp)]
        exact hld2) hd2]
    show List.dropWhile isGoSpace (' ' :: '-' :: '-' :: v2) = '-' :: '-' :: v2
    rw [List.dropWhile_cons]
    simp only [show isGoSpace ' ' = true by decide, if_true]
    exact dropWhile_eq_self_of_head (by decide)
  have htok2 : splitFirstToken ('-' :: '-' :: v2) = ('-' :: '-' :: v2, []) := by
    refine splitFirstToken_of_clean (trimSpace_clean_token (by decide) hv2') ?_
    apply indexWhere_eq_none
    intro c hc
    rcases List.mem_cons.1 hc with h | h
    · rw [h]
      decide
    · exact sptab_false_of_goSpace (hv2' _ h)
  have hXcons : X = '-' :: ('-' :: v1 ++ ((" | ").data ++ ('-' :: '-' :: v2))) := by
    rw [hX]
    simp
  have hne : ¬(X = []) := by
    rw [hXcons]
    simp
  have hdd : startsWith X (("--").data) = true := by
    rw [hX]
    simp only [List.cons_append]
    exact startsWith_dashdash_true _
  have hdd2 : startsWith ('-' :: '-' :: v2) (("--").data) = true := startsWith_dashdash_true _
  have hpipe : startsWith ('|' :: ' ' :: '-' :: '-' :: v2) (("|").data) = true := rfl
  have hpipe2 : startsWith ([] : Str) (("|").data) = false := rfl
  have htrimnil : trimSpace ([] : Str) = [] := rfl
  have hne2 : ¬(('-' :: '-' :: v2 : Str) = []) := by simp
  unfold consumeFlags
  rw [htrimX]
  generalize hgen : X.length = m0
  simp only [consumeFlagsAux]
  simp only [hne, hdd, hsplit1, htc, hpipe, htd, List.drop_succ_cons,
    List.drop_zero, if_true, if_false, Bool.false_eq_true, ite_false, ite_true]
  obtain ⟨k, hk⟩ : ∃ k, m0 = k + 1 := by
    refine ⟨m0 - 1, ?_⟩
    rw [← hgen, hXcons]
    simp
  rw [hk]
  simp only [consumeFlagsAux]
  simp only [hne2, hdd2, htok2, htrimnil, hpipe2, if_true, if_false,
    Bool.false_eq_true, ite_false, ite_true]

/-- Claim C9: when a flag or option tag text lists two spellings of the
same kind separated by a pipe, the later spelling overwrites the earlier
one in the resulting record (the loop writes the same short or long slot
twice), so at most one short and one long spelling survive and the last
of each kind wins; concretely `-a | -b` leaves only short `-b`. -/
theorem c9_pipe_separated_same_kind_last_wins :
    (∀ (u1 u2 short0 long0 : Str),
      (∀ c ∈ u1, isGoSpace c = false) → (∀ c ∈ u2, isGoSpace c = false) →
      u1.head? ≠ some '-' → u2.head? ≠ some '-' →
      consumeFlags (('-' :: u1) ++ (" | ").data ++ ('-' :: u2)) short0 long0
        = ([], '-' :: u2, long0)) ∧
    (∀ (v1 v2 short0 long0 : Str),
      (∀ c ∈ v1, isGoSpace c = false) → (∀ c ∈ v2, isGoSpace c = false) →
      consumeFlags (('-' :: '-' :: v1) ++ (" | ").data ++ ('-' :: '-' :: v2)) short0 long0
        = ([], short0, '-' :: '-' :: v2)) ∧
    parseFlag (("-a | -b").data) 1
      = .ok { short := ("-b").data, long := [], description := [], line := 1 } := by
  refine ⟨?_, ?_, rfl⟩
  · intro u1 u2 short0 long0 h1 h2 h3 h4
    exact consumeFlags_pipe_short_short u1 u2 short0 long0 h1 h2 h3 h4
  · intro v1 v2 short0 long0 h1 h2
    exact consumeFlags_pipe_long_long v1 v2 short0 long0 h1 h2

/-- Witness for C9 at concrete spellings `-a | -b` and `--aa | --bb`. -/
theorem c9_pipe_separated_same_kind_last_wins_witness :
    consumeFlags (('-' :: ("a").data) ++ (" | ").data ++ ('-' :: ("b").data))
        (("s0").data) (("l0").data)
      = ([], '-' :: ("b").data, ("l0").data) ∧
    consumeFlags (('-' :: '-' :: ("aa").data) ++ (" | ").data ++ ('-' :: '-' :: ("bb").data))
        (("s0").data) (("l0").data)
      = ([], ("s0").data, '-' :: '-' :: ("bb").data) := by
  constructor
  · exact c9_pipe_separated_same_kind_last_wins.1 (("a").data) (("b").data)
      (("s0").data) (("l0").data) (by decide) (by decide) (by decide) (by decide)
  · exact c9_pipe_separated_same_kind_last_wins.2.1 (("aa").data) (("bb").data)
      (("s0").data) (("l0").data) (by decide) (by decide)

/-! Helper lemmas for the value-notation round trip. -/

theorem ParseValue_req_plain {n : Str} (hn : n ≠ [])
    (hdots : endsWith n (("...").data) = false)
    (heq : ∀ c ∈ n, decide (c = '=') = false) :
    ParseValue ('<' :: n ++ ['>'])
      = .ok { name := n, required := true, default := [], variadic := false } := by
  have htrim : trimSpace ('<' :: n ++ ['>']) = '<' :: n ++ ['>'] :=
    trimSpace_of_ends (by decide) (by decide)
  have hlen : ¬(('<' :: n ++ ['>'] : Str).length < 3) := by
    simp [List.length_append]
    have := List.length_pos.2 hn
    omega
  unfold ParseValue
  rw [htrim]
  simp only [hlen, if_false]
  rw [show (('<' :: n ++ ['>'] : Str)).headD ' ' = '<' from rfl]
  rw [show (('<' :: n ++ ['>'] : Str)).getLastD ' ' = '>' from List.getLastD_concat _ _ _]
  simp only [if_pos (⟨rfl, rfl⟩ : '<' = '<' ∧ '>' = '>')]
  unfold ParseValue.parseValueInner
  rw [show (('<' :: n ++ ['>'] : Str)).drop 1 = n ++ ['>'] from rfl]
  rw [List.dropLast_concat]
  simp only [hn, if_false, hdots]
  simp [indexEq_eq_none heq]

theorem ParseValue_opt_plain {n : Str} (hn : n ≠ [])
    (hdots : endsWith n (("...").data) = false)
    (heq : ∀ c ∈ n, decide (c = '=') = false) :
    ParseValue ('[' :: n ++ [']'])
      = .ok { name := n, required := false, default := [], variadic := false } := by
  have htrim : trimSpace ('[' :: n ++ [']']) = '[' :: n ++ [']'] :=
    trimSpace_of_ends (by decide) (by decide)
  have hlen : ¬(('[' :: n ++ [']'] : Str).length < 3) := by
    simp [List.length_append]
    have := List.length_pos.2 hn
    omega
  unfold ParseValue
  rw [htrim]
  simp only [hlen, if_false]
  rw [show (('[' :: n ++ [']'] : Str)).headD ' ' = '[' from rfl]
  rw [show (('[' :: n ++ [']'] : Str)).getLastD ' ' = ']' from List.getLastD_concat _ _ _]
  rw [if_neg (by decide : ¬('[' = '<' ∧ ']' = '>'))]
  simp only [if_pos (⟨rfl, rfl⟩ : '[' = '[' ∧ ']' = ']')]
  unfold ParseValue.parseValueInner
  rw [show (('[' :: n ++ [']'] : Str)).drop 1 = n ++ [']'] from rfl]
  rw [List.dropLast_concat]
  simp only [hn, if_false, hdots]
  simp [indexEq_eq_none heq]

theorem ParseValue_opt_default {n d : Str} (hn : n ≠ [])
    (hsuf : endsWith (n ++ '=' :: d) (("...").data) = false)
    (heq : ∀ c ∈ n, decide (c = '=') = false) :
    ParseValue ('[' :: (n ++ '=' :: d) ++ [']'])
      = .ok { name := n, required := false, default := d, variadic := false } := by
  have htrim : trimSpace ('[' :: (n ++ '=' :: d) ++ [']'])
      = '[' :: (n ++ '=' :: d) ++ [']'] :=
    trimSpace_of_ends (by decide) (by decide)
  have hlen : ¬(('[' :: (n ++ '=' :: d) ++ [']'] : Str).length < 3) := by
    simp [List.length_append]
    omega
  have hidx : indexEq (n ++ '=' :: d) = some n.length := by
    rw [indexEq_append _ heq]
    rw [show indexEq ('=' :: d) = some 0 from rfl]
    simp
  have htake : (n ++ '=' :: d).take n.length = n := List.take_left _ _
  have hdrop : (n ++ '=' :: d).drop (n.length + 1) = d := by
    rw [show n ++ '=' :: d = (n ++ ['=']) ++ d by simp]
    rw [show n.length + 1 = (n ++ [('=')]).length by simp]
    exact List.drop_left _ _
  have hinne : ¬((n ++ '=' :: d : Str) = []) := by simp
  unfold ParseValue
  rw [htrim]
  simp only [hlen, if_false]
  rw [show (('[' :: (n ++ '=' :: d) ++ [']'] : Str)).headD ' ' = '[' from rfl]
  rw [show (('[' :: (n ++ '=' :: d) ++ [']'] : Str)).getLastD ' ' = ']'
      from List.getLastD_concat _ _ _]
  rw [if_neg (by decide : ¬('[' = '<' ∧ ']' = '>'))]
  simp only [if_pos (⟨rfl, rfl⟩ : '[' = '[' ∧ ']' = ']')]
  unfold ParseValue.parseValueInner
  rw [show (('[' :: (n ++ '=' :: d) ++ [']'] : Str)).drop 1 = (n ++ '=' :: d) ++ [']'] from rfl]
  rw [List.dropLast_concat]
  simp only [hinne, if_false, hsuf]
  simp [hidx, htake, hdrop, hn]

theorem ParseValue_req_variadic {n : Str} (hn : n ≠ [])
    (heq : ∀ c ∈ n, decide (c = '=') = false) :
    ParseValue ('<' :: (n ++ ("...").data) ++ ['>'])
      = .ok { name := n, required := true, default := [], variadic := true } := by
  have htrim : trimSpace ('<' :: (n ++ ("...").data) ++ ['>'])
      = '<' :: (n ++ ("...").data) ++ ['>'] :=
    trimSpace_of_ends (by decide) (by decide)
  have hlen : ¬(('<' :: (n ++ ("...").data) ++ ['>'] : Str).length < 3) := by
    simp [List.length_append]
  have hsuf : endsWith (n ++ ("...").data) (("...").data) = true := by
    unfold endsWith
    rw [List.isSuffixOf_iff_suffix]
    exact List.suffix_append _ _
  have htake : (n ++ ("...").data).take ((n ++ ("...").data).length - 3) = n := by
    rw [show (n ++ ("...").data).length - 3 = n.length by simp]
    exact List.take_left _ _
  have hinne : ¬((n ++ ("...").data : Str) = []) := by simp
  unfold ParseValue
  rw [htrim]
  simp only [hlen, if_false]
  rw [show (('<' :: (n ++ ("...").data) ++ ['>'] : Str)).headD ' ' = '<' from rfl]
  rw [show (('<' :: (n ++ ("...").data) ++ ['>'] : Str)).getLastD ' ' = '>'
      from List.getLastD_concat _ _ _]
  simp only [if_pos (⟨rfl, rfl⟩ : '<' = '<' ∧ '>' = '>')]
  unfold ParseValue.parseValueInner
  rw [show (('<' :: (n ++ ("...").data) ++ ['>'] : Str)).drop 1
      = (n ++ ("...").data) ++ ['>'] from rfl]
  rw [List.dropLast_concat]
  simp only [hinne, if_false, hsuf, htake]
  simp [hn, indexEq_eq_none heq]

theorem ParseValue_opt_variadic {n : Str} (hn : n ≠ [])
    (heq : ∀ c ∈ n, decide (c = '=') = false) :
    ParseValue ('[' :: (n ++ ("...").data) ++ [']'])
      = .ok { name := n, required := false, default := [], variadic := true } := by
  have htrim : trimSpace ('[' :: (n ++ ("...").data) ++ [']'])
      = '[' :: (n ++ ("...").data) ++ [']'] :=
    trimSpace_of_ends (by decide) (by decide)
  have hlen : ¬(('[' :: (n ++ ("...").data) ++ [']'] : Str).length < 3) := by
    simp [List.length_append]
  have hsuf : endsWith (n ++ ("...").data) (("...").data) = true := by
    unfold endsWith
    rw [List.isSuffixOf_iff_suffix]
    exact List.suffix_append _ _
  have htake : (n ++ ("...").data).take ((n ++ ("...").data).length - 3) = n := by
    rw [show (n ++ ("...").data).length - 3 = n.length by simp]
    exact List.take_left _ _
  have hinne : ¬((n ++ ("...").data : Str) = []) := by simp
  unfold ParseValue
  rw [htrim]
  simp only [hlen, if_false]
  rw [show (('[' :: (n ++ ("...").data) ++ [']'] : Str)).headD ' ' = '[' from rfl]
  rw [show (('[' :: (n ++ ("...").data) ++ [']'] : Str)).getLastD ' ' = ']'
      from List.getLastD_concat _ _ _]
  rw [if_neg (by decide : ¬('[' = '<' ∧ ']' = '>'))]
  simp only [if_pos (⟨rfl, rfl⟩ : '[' = '[' ∧ ']' = ']')]
  unfold ParseValue.parseValueInner
  rw [show (('[' :: (n ++ ("...").data) ++ [']'] : Str)).drop 1
      = (n ++ ("...").data) ++ [']'] from rfl]
  rw [List.dropLast_concat]
  simp only [hinne, if_false, hsuf, htake]
  simp [hn, indexEq_eq_none heq]

theorem pvInner_required (s : Str) (req : Bool) (v : Value)
    (h : ParseValue.parseValueInner s req = .ok v) : v.required = req := by
  unfold ParseValue.parseValueInner at h
  dsimp only at h
  split at h <;>
    (try split at h) <;>
    (try split at h) <;>
    (try split at h) <;>
    (try split at h) <;>
    (try split at h) <;>
    first
    | (exact Except.noConfusion h)
    | (rw [Except.ok.injEq] at h; rw [← h])

theorem pvInner_true_default (s : Str) (v : Value)
    (h : ParseValue.parseValueInner s true = .ok v) : v.default = [] := by
  unfold ParseValue.parseValueInner at h
  dsimp only at h
  split at h <;>
    (try split at h) <;>
    (try split at h) <;>
    (try split at h) <;>
    (try split at h) <;>
    (try split at h) <;>
    first
    | (exact Except.noConfusion h)
    | (exact absurd rfl ‹¬(true = true)›)
    | (rw [Except.ok.injEq] at h; rw [← h])

/-- Claim C3: the five canonical value-notation shapes parse to the
expected Value and the Value's fields reconstruct the input string, and
every Value that ParseValue ever returns satisfies required → no
default. -/
theorem c3_value_round_trip :
    (∀ n : Str, n ≠ [] → endsWith n (("...").data) = false →
      (∀ c ∈ n, decide (c = '=') = false) →
      ParseValue ('<' :: n ++ ['>'])
          = .ok { name := n, required := true, default := [], variadic := false } ∧
      renderValue { name := n, required := true, default := [], variadic := false }
          = '<' :: n ++ ['>']) ∧
    (∀ n : Str, n ≠ [] → endsWith n (("...").data) = false →
      (∀ c ∈ n, decide (c = '=') = false) →
      ParseValue ('[' :: n ++ [']'])
          = .ok { name := n, required := false, default := [], variadic := false } ∧
      renderValue { name := n, required := false, default := [], variadic := false }
          = '[' :: n ++ [']']) ∧
    (∀ n d : Str, n ≠ [] → d ≠ [] →
      endsWith (n ++ '=' :: d) (("...").data) = false →
      (∀ c ∈ n, decide (c = '=') = false) →
      ParseValue ('[' :: (n ++ '=' :: d) ++ [']'])
          = .ok { name := n, required := false, default := d, variadic := false } ∧
      renderValue { name := n, required := false, default := d, variadic := false }
          = '[' :: (n ++ '=' :: d) ++ [']']) ∧
    (∀ n : Str, n ≠ [] → (∀ c ∈ n, decide (c = '=') = false) →
      ParseValue ('<' :: (n ++ ("...").data) ++ ['>'])
          = .ok { name := n, required := true, default := [], variadic := true } ∧
      renderValue { name := n, required := true, default := [], variadic := true }
          = '<' :: (n ++ ("...").data) ++ ['>']) ∧
    (∀ n : Str, n ≠ [] → (∀ c ∈ n, decide (c = '=') = false) →
      ParseValue ('[' :: (n ++ ("...").data) ++ [']'])
          = .ok { name := n, required := false, default := [], variadic := true } ∧
      renderValue { name := n, required := false, default := [], variadic := true }
          = '[' :: (n ++ ("...").data) ++ [']']) ∧
    (∀ (s : Str) (v : Value), ParseValue s = .ok v → v.required = true →
      v.default = []) := by
  refine ⟨?_, ?_, ?_, ?_, ?_, ?_⟩
  · intro n hn hdots heq
    exact ⟨ParseValue_req_plain hn hdots heq, by simp [renderValue]⟩
  · intro n hn hdots heq
    exact ⟨ParseValue_opt_plain hn hdots heq, by simp [renderValue]⟩
  · intro n d hn hd hsuf heq
    exact ⟨ParseValue_opt_default hn hsuf heq, by simp [renderValue, hd]⟩
  · intro n hn heq
    exact ⟨ParseValue_req_variadic hn heq, by simp [renderValue]⟩
  · intro n hn heq
    exact ⟨ParseValue_opt_variadic hn heq, by simp [renderValue]⟩
  · intro s v h hreq
    unfold ParseValue at h
    dsimp only at h
    split at h
    · exact Except.noConfusion h
    · split at h
      · exact pvInner_true_default _ _ h
      · split at h
        · have hfalse := pvInner_required _ _ _ h
          rw [hfalse] at hreq
          exact absurd hreq (by simp)
        · exact Except.noConfusion h

/-- Witness for C3 at the concrete strings of the five shapes. -/
theorem c3_value_round_trip_witness :
    ParseValue (("<x>").data)
      = .ok { name := ("x").data, required := true, default := [], variadic := false } ∧
    ParseValue (("[x]").data)
      = .ok { name := ("x").data, required := false, default := [], variadic := false } ∧
    ParseValue (("[x=j]").data)
      = .ok { name := ("x").data, required := false, default := ("j").data, variadic := false } ∧
    ParseValue (("<x...>").data)
      = .ok { name := ("x").data, required := true, default := [], variadic := true } ∧
    ParseValue (("[x...]").data)
      = .ok { name := ("x").data, required := false, default := [], variadic := true } ∧
    ({ name := ("x").data, required := true, default := [],
       variadic := false } : Value).default = [] := by
  refine ⟨?_, ?_, ?_, ?_, ?_, ?_⟩
  · exact (c3_value_round_trip.1 (("x").data) (by decide) (by decide) (by decide)).1
  · exact (c3_value_round_trip.2.1 (("x").data) (by decide) (by decide) (by decide)).1
  · exact (c3_value_round_trip.2.2.1 (("x").data) (("j").data) (by decide) (by decide)
      (by decide) (by decide)).1
  · exact (c3_value_round_trip.2.2.2.1 (("x").data) (by decide) (by decide)).1
  · exact (c3_value_round_trip.2.2.2.2.1 (("x").data) (by decide) (by decide)).1
  · exact c3_value_round_trip.2.2.2.2.2 (("<x>").data)
      { name := ("x").data, required := true, default := [], variadic := false }
      (c3_value_round_trip.1 (("x").data) (by decide) (by decide) (by decide)).1 rfl

/-! Helper lemmas about trailing whitespace. -/

theorem blank_goSpace {x : Char} (h : x = ' ' ∨ x = '\t') : isGoSpace x = true := by
  rcases h with rfl | rfl <;> decide

theorem blank_reSpace {x : Char} (h : x = ' ' ∨ x = '\t') : isReSpace x = true := by
  rcases h with rfl | rfl <;> decide

theorem goSpace_of_reSpace {c : Char} (h : isReSpace c = true) : isGoSpace c = true := by
  unfold isReSpace at h
  simp only [Bool.or_eq_true, decide_eq_true_eq] at h
  rcases h with ((((rfl | rfl) | rfl) | rfl) | rfl) <;> decide

theorem trimSpace_all_space {s : Str} (h : ∀ c ∈ s, isGoSpace c = true) :
    trimSpace s = [] := by
  unfold trimSpace trimRight trimLeft
  rw [List.dropWhile_eq_nil_iff.2 (fun c hc => h c (List.mem_reverse.1 hc))]
  rfl

theorem inlineCapture_trim {rest ws : Str}
    (hws : ∀ x ∈ ws, x = ' ' ∨ x = '\t') :
    trimSpace (inlineCapture (rest ++ ws)) = trimSpace (inlineCapture rest) := by
  unfold inlineCapture
  by_cases hz : rest.dropWhile isReSpace = []
  · have hall : ∀ c ∈ rest, isReSpace c = true := List.dropWhile_eq_nil_iff.1 hz
    have hallg : ∀ c ∈ rest ++ ws, isGoSpace c = true := by
      intro c hc
      rcases List.mem_append.1 hc with h | h
      · exact goSpace_of_reSpace (hall c h)
      · exact blank_goSpace (hws c h)
    have hz' : (rest ++ ws).dropWhile isReSpace = [] := by
      apply List.dropWhile_eq_nil_iff.2
      intro c hc
      rcases List.mem_append.1 hc with h | h
      · exact hall c h
      · exact blank_reSpace (hws c h)
    rw [hz, hz']
    simp only [if_pos rfl]
    rw [trimSpace_all_space, trimSpace_all_space]
    · intro c hc
      exact goSpace_of_reSpace (hall c (List.mem_of_mem_drop hc))
    · intro c hc
      exact hallg c (List.mem_of_mem_drop hc)
  · have hz2 : (rest ++ ws).dropWhile isReSpace = rest.dropWhile isReSpace ++ ws :=
      dropWhile_append_of_stop _ hz
    have hz3 : ¬((rest ++ ws).dropWhile isReSpace = []) := by
      rw [hz2]
      simp [hz]
    rw [if_neg hz3, if_neg hz, hz2]
    exact trimSpace_append_of_all (fun c hc => blank_goSpace (hws c hc))

theorem shedocInlineBody_append {r ws t v : Str}
    (h : shedocInlineBody r = some (t, v))
    (hws : ∀ x ∈ ws, x = ' ' ∨ x = '\t') :
    ∃ v', shedocInlineBody (r ++ ws) = some (t, v') ∧ trimSpace v' = trimSpace v := by
  unfold shedocInlineBody at h
  dsimp only at h
  split at h
  case _ c cs hrest =>
    split at h
    case isTrue hcond =>
      rw [Option.some.injEq, Prod.mk.injEq] at h
      obtain ⟨ht, hv⟩ := h
      simp only [Bool.and_eq_true, ne_eq, decide_eq_true_eq] at hcond
      obtain ⟨⟨hw, hc⟩, hcs⟩ := hcond
      have hdne : r.dropWhile isWordChar ≠ [] := by
        rw [hrest]
        simp
      have hdw : (r ++ ws).dropWhile isWordChar = c :: (cs ++ ws) := by
        rw [dropWhile_append_of_stop _ hdne, hrest]
        rfl
      have htw : (r ++ ws).takeWhile isWordChar = t := by
        rw [takeWhile_append_of_stop _ hdne, ht]
      have hcond2 : (decide (t ≠ []) && isReSpace c && decide ((cs ++ ws) ≠ [])) = true := by
        simp only [Bool.and_eq_true, ne_eq, decide_eq_true_eq]
        refine ⟨⟨?_, hc⟩, by simp [hcs]⟩
        rw [← ht]
        exact hw
      refine ⟨inlineCapture ((r ++ ws).dropWhile isWordChar), ?_, ?_⟩
      · unfold shedocInlineBody
        dsimp only
        rw [hdw, htw]
        dsimp only
        simp only [hcond2, if_true]
      · rw [dropWhile_append_of_stop _ hdne, ← hv]
        exact inlineCapture_trim hws
    case isFalse => exact absurd h (by simp)
  case _ => exact absurd h (by simp)

theorem handleTop_inline_trailing_ws (p : Parser) (l ws t v : Str)
    (h : matchShedocInline l = some (t, v))
    (hws : ∀ x ∈ ws, x = ' ' ∨ x = '\t') :
    handleTop p (l ++ ws) = handleTop p l := by
  unfold matchShedocInline at h
  split at h
  case _ r =>
    obtain ⟨v', hb', htv⟩ := shedocInlineBody_append h hws
    have h1 : matchShedocInline ('#' :: '?' :: '/' :: r) = some (t, v) := h
    have h2 : matchShedocInline ('#' :: '?' :: '/' :: (r ++ ws)) = some (t, v') := hb'
    have hsb1 : matchShebang ('#' :: '?' :: '/' :: r) = none := rfl
    have hsb2 : matchShebang ('#' :: '?' :: '/' :: (r ++ ws)) = none := rfl
    rw [show ('#' :: '?' :: '/' :: r) ++ ws = '#' :: '?' :: '/' :: (r ++ ws) by simp]
    simp only [handleTop, hsb1, hsb2, h1, h2, htv]
  case _ => exact absurd h (by simp)

theorem handleSheblock_tagline_trailing_ws (p : Parser) (l ws c : Str) (nt : Str × Str)
    (hcont : matchContinuation l = some c) (hsplit : splitTag c = some nt)
    (hws : ∀ x ∈ ws, x = ' ' ∨ x = '\t') :
    handleSheblock p (l ++ ws) = handleSheblock p l := by
  have hcne : c ≠ [] := by
    intro hceq
    rw [hceq] at hsplit
    rw [show splitTag ([] : Str) = none from rfl] at hsplit
    exact Option.noConfusion hsplit
  unfold matchContinuation at hcont
  split at hcont
  case _ r =>
    have hcr : contTail r = c := Option.some.inj hcont
    have hrne : r ≠ [] := by
      intro hr
      apply hcne
      rw [← hcr, hr]
      rfl
    have hcont1 : matchContinuation (' ' :: '#' :: r) = some c := hcont
    have hcont2 : matchContinuation ((' ' :: '#' :: r) ++ ws) = some (c ++ ws) := by
      rw [show (' ' :: '#' :: r) ++ ws = ' ' :: '#' :: (r ++ ws) by simp]
      show some (contTail (r ++ ws)) = _
      rw [contTail_append _ hrne, hcr]
    have hsplit2 : splitTag (c ++ ws) = some nt := by
      unfold splitTag
      rw [trimSpace_append_of_all (fun x hx => blank_goSpace (hws x hx))]
      unfold splitTag at hsplit
      exact hsplit
    have hclose1 : matchBlockClose (' ' :: '#' :: r) = false :=
      not_close_of_splitTag hcont1 hsplit
    have hclose2 : matchBlockClose ((' ' :: '#' :: r) ++ ws) = false :=
      not_close_of_splitTag hcont2 hsplit2
    obtain ⟨tagName, tagText⟩ := nt
    simp only [handleSheblock, hclose1, hclose2, hcont1, hcont2, hsplit, hsplit2]
  case _ => exact absurd hcont (by simp)

/-- Claim C8 counterexample: adding one leading space to the inline
metadata line `#?/name greet` changes the parsed Document (the line is
no longer recognized, so Meta.Name stays empty). -/
theorem c8_counterexample :
    (ParseReader [(" #?/name greet").data]).1
      ≠ (ParseReader [("#?/name greet").data]).1 := by
  decide

/-- Claim C8 (amended): trailing whitespace never affects the processing
of a documentation tag line or of an inline metadata line; leading
whitespace, however, changes the parsed result (the line matchers are
anchored at column 0 and a continuation line requires exactly one
leading space), as can trailing whitespace on a metadata block-open
line, which reclassifies it as an inline metadata line with empty
value. -/
theorem c8_trailing_ws_amended :
    (∀ (p : Parser) (l ws c : Str) (nt : Str × Str),
      matchContinuation l = some c → splitTag c = some nt →
      (∀ x ∈ ws, x = ' ' ∨ x = '\t') →
      handleSheblock p (l ++ ws) = handleSheblock p l) ∧
    (∀ (p : Parser) (l ws t v : Str),
      matchShedocInline l = some (t, v) →
      (∀ x ∈ ws, x = ' ' ∨ x = '\t') →
      handleTop p (l ++ ws) = handleTop p l) := by
  constructor
  · intro p l ws c nt hcont hsplit hws
    exact handleSheblock_tagline_trailing_ws p l ws c nt hcont hsplit hws
  · intro p l ws t v h hws
    exact handleTop_inline_trailing_ws p l ws t v h hws

/-- Witness for the amended C8 at concrete lines with two trailing
spaces. -/
theorem c8_trailing_ws_amended_witness :
    handleSheblock {} ((" # @flag -v Verbose").data ++ ("  ").data)
      = handleSheblock {} ((" # @flag -v Verbose").data) ∧
    handleTop {} (("#?/name greet").data ++ ("  ").data)
      = handleTop {} (("#?/name greet").data) := by
  constructor
  · exact c8_trailing_ws_amended.1 {} ((" # @flag -v Verbose").data) (("  ").data)
      (("@flag -v Verbose").data) ((("flag").data, ("-v Verbose").data))
      (by decide) (by decide) (by decide)
  · exact c8_trailing_ws_amended.2 {} (("#?/name greet").data) (("  ").data)
      (("name").data) (("greet").data) (by decide) (by decide)

/-! Helper lemmas about end-of-input finalization versus an explicit
closer line. -/

theorem fct_line_update (p : Parser) (n : Nat) :
    finalizeCurrentTag { p with line := n } = { finalizeCurrentTag p with line := n } := by
  unfold finalizeCurrentTag
  dsimp only
  cases p.currentResult with
  | none => rfl
  | some r =>
    by_cases h : p.currentTag = []
    · simp [h]
    · simp [h]

theorem fb_line_update (p : Parser) (n : Nat) :
    finalizeBlock { p with line := n } = { finalizeBlock p with line := n } := by
  cases hb : p.block with
  | none => simp [finalizeBlock, hb]
  | some b => simp [finalizeBlock, hb]

theorem setShedocMeta_known_line (p : Parser) (tag v : Str) (n : Nat)
    (h : knownMetaTag tag = true) :
    setShedocMeta { p with line := n } tag v = { setShedocMeta p tag v with line := n } := by
  unfold knownMetaTag at h
  simp only [Bool.or_eq_true, decide_eq_true_eq] at h
  rcases h with ((((((h | h) | h) | h) | h) | h) | h) | h <;>
    (subst h; simp [setShedocMeta])

theorem setShedocMeta_unknown (p : Parser) (tag v : Str)
    (h : knownMetaTag tag = false) :
    setShedocMeta p tag v = { p with doc := { p.doc with warnings := p.doc.warnings
      ++ [{ line := p.line, message := ("unknown shedoc tag: #?/").data ++ tag }] } } := by
  unfold knownMetaTag at h
  simp only [Bool.or_eq_false_iff, decide_eq_false_iff_not] at h
  obtain ⟨⟨⟨⟨⟨⟨⟨h1, h2⟩, h3⟩, h4⟩, h5⟩, h6⟩, h7⟩, h8⟩ := h
  simp [setShedocMeta, h1, h2, h3, h4, h5, h6, h7, h8]

theorem finalizeShedoc_line_known (p : Parser) (n : Nat)
    (h : knownMetaTag p.shedocTag = true ∨ p.shedocTag = []) :
    finalizeShedoc { p with line := n } = { finalizeShedoc p with line := n } := by
  unfold finalizeShedoc
  dsimp only
  rcases h with h | h
  · have hne : p.shedocTag ≠ [] := by
      intro he
      rw [he] at h
      exact absurd h (by decide)
    simp only [hne, ne_eq, not_false_iff, if_true]
    rw [setShedocMeta_known_line p _ _ n h]
  · simp [h]

theorem finalizeShedoc_line_doc (p : Parser) (n : Nat) :
    (finalizeShedoc { p with line := n }).doc.meta = (finalizeShedoc p).doc.meta ∧
    (finalizeShedoc { p with line := n }).doc.blocks = (finalizeShedoc p).doc.blocks ∧
    (finalizeShedoc { p with line := n }).doc.warnings.map Warning.message
      = (finalizeShedoc p).doc.warnings.map Warning.message := by
  by_cases hk : knownMetaTag p.shedocTag = true ∨ p.shedocTag = []
  · rw [finalizeShedoc_line_known p n hk]
    simp
  · push_neg at hk
    obtain ⟨hk1, hk2⟩ := hk
    have hkf : knownMetaTag p.shedocTag = false := by
      cases hx : knownMetaTag p.shedocTag
      · rfl
      · exact absurd hx hk1
    unfold finalizeShedoc
    dsimp only
    simp only [hk2, ne_eq, not_false_iff, if_true]
    rw [setShedocMeta_unknown _ _ _ hkf, setShedocMeta_unknown _ _ _ hkf]
    simp

theorem closer_step_sheblock (P : Parser) (h : P.state = .stateSheblock) :
    (finalizeEOF (stepLine P closerLine)).doc = (finalizeEOF P).doc := by
  have h1 : stepLine P closerLine
      = { finalizeBlock (finalizeCurrentTag { P with line := P.line + 1 })
          with state := .stateTop } := by
    unfold stepLine
    dsimp only
    rw [h]
    rfl
  rw [h1]
  have h2 : finalizeEOF { finalizeBlock (finalizeCurrentTag { P with line := P.line + 1 })
      with state := .stateTop }
      = { finalizeBlock (finalizeCurrentTag { P with line := P.line + 1 })
          with state := .stateTop } := rfl
  rw [h2]
  have h3 : finalizeEOF P = finalizeBlock (finalizeCurrentTag P) := by
    unfold finalizeEOF
    rw [h]
  rw [h3, fct_line_update, fb_line_update]

theorem closer_step_shedoc (P : Parser) (h : P.state = .stateShedoc) :
    ((knownMetaTag P.shedocTag = true ∨ P.shedocTag = []) →
      (finalizeEOF (stepLine P closerLine)).doc = (finalizeEOF P).doc) ∧
    ((finalizeEOF (stepLine P closerLine)).doc.meta = (finalizeEOF P).doc.meta ∧
     (finalizeEOF (stepLine P closerLine)).doc.blocks = (finalizeEOF P).doc.blocks ∧
     (finalizeEOF (stepLine P closerLine)).doc.warnings.map Warning.message
       = (finalizeEOF P).doc.warnings.map Warning.message) := by
  have h1 : stepLine P closerLine
      = { finalizeShedoc { P with line := P.line + 1 } with state := .stateTop } := by
    unfold stepLine
    dsimp only
    rw [h]
    rfl
  have h3 : finalizeEOF P = finalizeShedoc P := by
    unfold finalizeEOF
    rw [h]
  rw [h1, h3]
  have h2 : finalizeEOF { finalizeShedoc { P with line := P.line + 1 }
      with state := .stateTop }
      = { finalizeShedoc { P with line := P.line + 1 } with state := .stateTop } := rfl
  rw [h2]
  constructor
  · intro hk
    rw [finalizeShedoc_line_known P _ hk]
  · obtain ⟨hm, hb, hw⟩ := finalizeShedoc_line_doc P (P.line + 1)
    exact ⟨hm, hb, hw⟩

/-- Claim C4 counterexample: the input `#?/bogus` ends inside a metadata
block; at end of input the unknown-tag warning carries line 1, while
with an explicit closer appended it carries line 2 (the closer's line),
so the two documents do not have the same warnings. -/
theorem c4_counterexample :
    (([("#?/bogus").data] : List Str).foldl stepLine {}).state = .stateShedoc ∧
    (ParseReader [("#?/bogus").data]).1.warnings
      ≠ (ParseReader ([("#?/bogus").data] ++ [closerLine])).1.warnings := by
  decide

/-- Claim C4 (amended): an input ending inside a documentation block
parses to exactly the same Document as the same input with an explicit
closer appended; for an unterminated metadata block the same holds when
the metadata tag is known (or empty), while for an unknown metadata tag
the Meta fields, the Blocks, and the warning messages still agree and
only the line number of the finalization warning differs (it becomes
the closer's line). -/
theorem c4_unterminated_equals_closed_amended :
    ∀ ls : List Str,
      ((ls.foldl stepLine {}).state = .stateSheblock →
        ParseReader (ls ++ [closerLine]) = ParseReader ls) ∧
      ((ls.foldl stepLine {}).state = .stateShedoc →
        ((knownMetaTag (ls.foldl stepLine {}).shedocTag = true ∨
            (ls.foldl stepLine {}).shedocTag = []) →
          ParseReader (ls ++ [closerLine]) = ParseReader ls) ∧
        ((ParseReader (ls ++ [closerLine])).1.meta = (ParseReader ls).1.meta ∧
         (ParseReader (ls ++ [closerLine])).1.blocks = (ParseReader ls).1.blocks ∧
         (ParseReader (ls ++ [closerLine])).1.warnings.map Warning.message
           = (ParseReader ls).1.warnings.map Warning.message)) := by
  intro ls
  have hfold : runLines (ls ++ [closerLine])
      = finalizeEOF (stepLine (ls.foldl stepLine {}) closerLine) := by
    unfold runLines
    rw [List.foldl_append]
    rfl
  constructor
  · intro h
    show ((runLines (ls ++ [closerLine])).doc, (none : Option Str))
        = ((runLines ls).doc, none)
    rw [hfold]
    rw [show runLines ls = finalizeEOF (ls.foldl stepLine {}) from rfl]
    rw [closer_step_sheblock _ h]
  · intro h
    obtain ⟨hk, hm, hb, hw⟩ := closer_step_shedoc (ls.foldl stepLine {}) h
    refine ⟨?_, ?_, ?_, ?_⟩
    · intro hkk
      show ((runLines (ls ++ [closerLine])).doc, (none : Option Str))
          = ((runLines ls).doc, none)
      rw [hfold]
      rw [show runLines ls = finalizeEOF (ls.foldl stepLine {}) from rfl]
      rw [hk hkk]
    · show (runLines (ls ++ [closerLine])).doc.meta = (runLines ls).doc.meta
      rw [hfold]
      exact hm
    · show (runLines (ls ++ [closerLine])).doc.blocks = (runLines ls).doc.blocks
      rw [hfold]
      exact hb
    · show ((runLines (ls ++ [closerLine])).doc.warnings.map Warning.message)
          = (runLines ls).doc.warnings.map Warning.message
      rw [hfold]
      exact hw

/-- Witness for the amended C4: an unterminated documentation block and
an unterminated known-tag metadata block both parse exactly as their
explicitly closed counterparts. -/
theorem c4_unterminated_equals_closed_amended_witness :
    ParseReader ([("#@/command").data, (" # A block.").data] ++ [closerLine])
      = ParseReader [("#@/command").data, (" # A block.").data] ∧
    ParseReader ([("#?/description").data, (" # Some text.").data] ++ [closerLine])
      = ParseReader [("#?/description").data, (" # Some text.").data] := by
  constructor
  · exact (c4_unterminated_equals_closed_amended
      [("#@/command").data, (" # A block.").data]).1 (by decide)
  · exact ((c4_unterminated_equals_closed_amended
      [("#?/description").data, (" # Some text.").data]).2 (by decide)).1
      (Or.inl (by decide))

end Shedoc
